import Mathlib

set_option linter.constructorNameAsVariable false
set_option maxRecDepth 4096

/-
Verification of the sudogame constraint-satisfaction engine.

The repository contains three near-duplicate implementations of the same
engine:
  - the object-literal module sudoku-core.js           (namespace SudokuCore)
  - the class-based module sudoku-solver.js            (namespace SudokuSolver)
  - the standalone functional module src/unnamed/part_000 (namespace SudokuGen)

A grid is a 9x9 matrix of integers in 0..9 where 0 denotes an empty cell.
We embed it as a total function Fin 9 → Fin 9 → Nat.  The JavaScript code
mutates grids in place; every mutating routine is embedded in state-passing
style: it returns its result together with the final state of the grid it
was handed, so that the restore-on-backtrack behaviour of the source is
visible and provable.  Recursion in the source terminates because every
recursive call fills one empty cell; the embeddings take an explicit fuel
argument and the top-level wrappers pass (number of empty cells + 1), which
is exactly the recursion depth of the source.

Randomness (Math.random-driven Fisher-Yates shuffles of candidate lists) is
embedded as an explicit parameter reorder : Grid → List Nat → List Nat:
within one solver invocation all visited search nodes carry pairwise
distinct grids (siblings differ at the cell branched on), so a per-grid
reordering function captures every possible outcome of the random source;
theorems quantify over all such functions, constrained only to produce a
permutation of their input, which is what a Fisher-Yates shuffle does.
-/

/-- Sudoku grid: entry 0 denotes an empty cell, 1..9 are placed digits. -/
def Grid : Type := Fin 9 → Fin 9 → Nat

/-- Builds a grid from a row-major list of rows; missing entries default to 0. -/
def mkGrid (rows : List (List Nat)) : Grid := fun i j =>
  ((rows.getD i.val []).getD j.val 0)

instance : DecidableEq Grid := by unfold Grid; infer_instance

/-- Grid update: the pure counterpart of the assignment grid[r][c] = v. -/
def gset (g : Grid) (r c : Fin 9) (v : Nat) : Grid := fun i j =>
  if i = r ∧ j = c then v else g i j

/-- All-zero grid, as built by Array(9).fill().map(() => Array(9).fill(0)). -/
def emptyGrid : Grid := fun _ _ => 0

theorem gset_self (g : Grid) (r c : Fin 9) (v : Nat) : gset g r c v r c = v := by
  simp [gset]

theorem gset_ne (g : Grid) (r c : Fin 9) (v : Nat) (i j : Fin 9)
    (h : ¬(i = r ∧ j = c)) : gset g r c v i j = g i j := by
  simp [gset, h]

theorem gset_gset (g : Grid) (r c : Fin 9) (v w : Nat) :
    gset (gset g r c v) r c w = gset g r c w := by
  funext i j; by_cases h : i = r ∧ j = c <;> simp [gset, h]

theorem gset_restore (g : Grid) (r c : Fin 9) (v : Nat) (h : g r c = v) :
    gset g r c v = g := by
  funext i j
  by_cases hij : i = r ∧ j = c
  · obtain ⟨hi, hj⟩ := hij; subst hi; subst hj; simp [gset, h]
  · simp [gset, hij]

theorem gset_cancel (g : Grid) (r c : Fin 9) (v : Nat) (h : g r c = 0) :
    gset (gset g r c v) r c 0 = g := by
  rw [gset_gset]; exact gset_restore g r c 0 h

/-- Start row (resp. column) of the 3x3 box containing index r:
Math.floor(r / 3) * 3. -/
def boxStart (r : Fin 9) : Nat := r.val / 3 * 3

theorem boxStart_add_lt (r : Fin 9) (i : Fin 3) : boxStart r + i.val < 9 := by
  have h1 : r.val < 9 := r.isLt
  have h2 : i.val < 3 := i.isLt
  unfold boxStart; omega

/-- Cell index boxStart r + i inside the box of r. -/
def boxIdx (r : Fin 9) (i : Fin 3) : Fin 9 := ⟨boxStart r + i.val, boxStart_add_lt r i⟩

/-- Placement-validity predicate of sudoku-core.js (isValidPlacement, lines
29-50) and, identically, SudokuSolver.isValidPlacement (lines 25-46): scans
the whole row, the whole column and the whole 3x3 box of (row, col) and
returns false as soon as num is found.  The source is a pure read-only
function; the embedding is accordingly a function with no state component. -/
def isValidPlacement (g : Grid) (row col : Fin 9) (num : Nat) : Bool :=
  ((List.finRange 9).all fun x => !(g row x == num)) &&
  ((List.finRange 9).all fun x => !(g x col == num)) &&
  ((List.finRange 3).all fun i => (List.finRange 3).all fun j =>
    !(g (boxIdx row i) (boxIdx col j) == num))

/-- Placement-validity predicate of the functional module (part_000,
isValidPlacement, lines 30-56): a single loop i = 0..8 that checks the i-th
cell of the row, of the column, and of the box (via boxRow = start + i/3,
boxCol = start + i%3) in each iteration. -/
def isValidPlacementP0 (g : Grid) (row col : Fin 9) (num : Nat) : Bool :=
  (List.finRange 9).all fun i =>
    (!(g row i == num)) &&
    (!(g i col == num)) &&
    (!(g (boxIdx row ⟨i.val / 3, by have := i.isLt; omega⟩)
        (boxIdx col ⟨i.val % 3, by have := i.isLt; omega⟩) == num))

theorem isValidPlacement_true_iff (g : Grid) (r c : Fin 9) (num : Nat) :
    isValidPlacement g r c num = true ↔
      (∀ x, g r x ≠ num) ∧ (∀ x, g x c ≠ num) ∧
      (∀ i j : Fin 3, g (boxIdx r i) (boxIdx c j) ≠ num) := by
  simp [isValidPlacement, List.all_eq_true, and_assoc]

theorem isValidPlacementP0_eq (g : Grid) (r c : Fin 9) (num : Nat) :
    isValidPlacementP0 g r c num = isValidPlacement g r c num := by
  by_cases h : isValidPlacement g r c num = true
  · rw [h]
    rw [isValidPlacement_true_iff] at h
    obtain ⟨h1, h2, h3⟩ := h
    simp only [isValidPlacementP0, List.all_eq_true]
    intro i _
    simp only [Bool.and_eq_true, Bool.not_eq_true', beq_eq_false_iff_ne]
    exact ⟨⟨h1 i, h2 i⟩, h3 _ _⟩
  · rw [Bool.not_eq_true] at h
    rw [h]
    rw [Bool.eq_false_iff] at h ⊢
    intro hP0
    apply h
    rw [isValidPlacement_true_iff]
    rw [isValidPlacementP0] at hP0
    simp only [List.all_eq_true, Bool.and_eq_true, Bool.not_eq_true',
      beq_eq_false_iff_ne] at hP0
    refine ⟨fun x => (hP0 x (List.mem_finRange x)).1.1,
            fun x => (hP0 x (List.mem_finRange x)).1.2, fun i j => ?_⟩
    have hx : (boxIdx r i).val / 3 * 3 + (boxIdx c j).val % 3 < 9 := by
      have := (boxIdx r i).isLt; have := (boxIdx c j).isLt; omega
    have key := (hP0 ⟨i.val * 3 + j.val, by have := i.isLt; have := j.isLt; omega⟩
      (List.mem_finRange _)).2
    have hi3 : (i.val * 3 + j.val) / 3 = i.val := by
      have := j.isLt; omega
    have hj3 : (i.val * 3 + j.val) % 3 = j.val := by
      have := j.isLt; omega
    convert key using 3
    · exact Fin.ext hi3.symm
    · exact Fin.ext hj3.symm

theorem boxIdx_div (r : Fin 9) (i : Fin 3) : (boxIdx r i).val / 3 = r.val / 3 := by
  have h1 : r.val < 9 := r.isLt
  have h2 : i.val < 3 := i.isLt
  simp only [boxIdx, boxStart]
  omega

/-- Membership in the box of (r, c) expressed two ways: through the box
coordinates, or through equality of row-band and column-band. -/
theorem box_exists_iff (g : Grid) (r c : Fin 9) (num : Nat) :
    (∃ i j : Fin 3, g (boxIdx r i) (boxIdx c j) = num) ↔
      (∃ x y : Fin 9, x.val / 3 = r.val / 3 ∧ y.val / 3 = c.val / 3 ∧ g x y = num) := by
  constructor
  · rintro ⟨i, j, h⟩
    exact ⟨boxIdx r i, boxIdx c j, boxIdx_div r i, boxIdx_div c j, h⟩
  · rintro ⟨x, y, hx, hy, h⟩
    refine ⟨⟨x.val % 3, Nat.mod_lt _ (by omega)⟩, ⟨y.val % 3, Nat.mod_lt _ (by omega)⟩, ?_⟩
    have hbx : boxIdx r ⟨x.val % 3, Nat.mod_lt _ (by omega)⟩ = x := by
      apply Fin.ext
      simp only [boxIdx, boxStart]
      omega
    have hby : boxIdx c ⟨y.val % 3, Nat.mod_lt _ (by omega)⟩ = y := by
      apply Fin.ext
      simp only [boxIdx, boxStart]
      omega
    rw [hbx, hby]; exact h

theorem isValidPlacement_false_iff (g : Grid) (r c : Fin 9) (num : Nat) :
    isValidPlacement g r c num = false ↔
      (∃ x, g r x = num) ∨ (∃ x, g x c = num) ∨
      (∃ x y : Fin 9, x.val / 3 = r.val / 3 ∧ y.val / 3 = c.val / 3 ∧ g x y = num) := by
  rw [← box_exists_iff, Bool.eq_false_iff, Ne, isValidPlacement_true_iff]
  constructor
  · intro h
    by_contra hcon
    push_neg at hcon
    exact h ⟨hcon.1, hcon.2.1, hcon.2.2⟩
  · rintro (⟨x, hx⟩ | ⟨x, hx⟩ | ⟨i, j, hx⟩) ⟨h1, h2, h3⟩
    · exact h1 x hx
    · exact h2 x hx
    · exact h3 i j hx

/-- Grid has no empty cell (spec section 3: complete means zero empty cells). -/
def gridComplete (g : Grid) : Prop := ∀ i j, g i j ≠ 0

/-- Every entry of the grid lies in 0..9. -/
def gridRange (g : Grid) : Prop := ∀ i j, g i j ≤ 9

/-- Structural Sudoku invariant (spec section 3): no digit repeats within any
row, column, or box, quantified over the non-empty cells. -/
def gridValid (g : Grid) : Prop :=
  (∀ r c₁ c₂ : Fin 9, c₁ ≠ c₂ → g r c₁ ≠ 0 → g r c₁ ≠ g r c₂) ∧
  (∀ c r₁ r₂ : Fin 9, r₁ ≠ r₂ → g r₁ c ≠ 0 → g r₁ c ≠ g r₂ c) ∧
  (∀ r₁ c₁ r₂ c₂ : Fin 9, r₁.val / 3 = r₂.val / 3 → c₁.val / 3 = c₂.val / 3 →
    (r₁ ≠ r₂ ∨ c₁ ≠ c₂) → g r₁ c₁ ≠ 0 → g r₁ c₁ ≠ g r₂ c₂)

/-- h agrees with g on every filled cell of g. -/
def gridExtends (g h : Grid) : Prop := ∀ i j, g i j ≠ 0 → h i j = g i j

/-- h is a complete valid filling of the partial grid g. -/
def isCompletionOf (h g : Grid) : Prop :=
  gridExtends g h ∧ gridComplete h ∧ gridRange h ∧ gridValid h

instance (g : Grid) : Decidable (gridComplete g) := by
  unfold gridComplete; infer_instance

instance (g : Grid) : Decidable (gridRange g) := by
  unfold gridRange; infer_instance

instance (g : Grid) : Decidable (gridValid g) := by
  have h1 : Decidable (∀ r c₁ c₂ : Fin 9, c₁ ≠ c₂ → g r c₁ ≠ 0 → g r c₁ ≠ g r c₂) :=
    inferInstance
  have h2 : Decidable (∀ c r₁ r₂ : Fin 9, r₁ ≠ r₂ → g r₁ c ≠ 0 → g r₁ c ≠ g r₂ c) :=
    inferInstance
  have h3 : Decidable (∀ r₁ c₁ r₂ c₂ : Fin 9, r₁.val / 3 = r₂.val / 3 →
      c₁.val / 3 = c₂.val / 3 → (r₁ ≠ r₂ ∨ c₁ ≠ c₂) → g r₁ c₁ ≠ 0 → g r₁ c₁ ≠ g r₂ c₂) :=
    inferInstance
  unfold gridValid
  exact @instDecidableAnd _ _ h1 (@instDecidableAnd _ _ h2 h3)

instance (g h : Grid) : Decidable (gridExtends g h) := by
  unfold gridExtends; infer_instance

instance (h g : Grid) : Decidable (isCompletionOf h g) := by
  have h1 : Decidable (gridExtends g h) := inferInstance
  have h2 : Decidable (gridComplete h) := inferInstance
  have h3 : Decidable (gridRange h) := inferInstance
  have h4 : Decidable (gridValid h) := inferInstance
  unfold isCompletionOf
  exact @instDecidableAnd _ _ h1 (@instDecidableAnd _ _ h2 (@instDecidableAnd _ _ h3 h4))

/-- Views a function into Fin 9 as a grid with digits 1..9. -/
def toDigits (f : Fin 9 → Fin 9 → Fin 9) : Grid := fun i j => (f i j).val + 1

/-- Left inverse of toDigits on complete in-range grids. -/
def encodeGrid (g : Grid) : Fin 9 → Fin 9 → Fin 9 := fun i j =>
  ⟨(g i j - 1) % 9, Nat.mod_lt _ (by omega)⟩

/-- The (finite) set of complete valid fillings of g, represented through
digit functions into Fin 9. -/
def completionsFinset (g : Grid) : Finset (Fin 9 → Fin 9 → Fin 9) :=
  Finset.univ.filter fun f => isCompletionOf (toDigits f) g

/-- Number N of distinct complete valid fillings of g. -/
def numSolutions (g : Grid) : Nat := (completionsFinset g).card

attribute [irreducible] completionsFinset numSolutions


theorem mem_completionsFinset (g : Grid) (f : Fin 9 → Fin 9 → Fin 9) :
    f ∈ completionsFinset g ↔ isCompletionOf (toDigits f) g := by
  rw [completionsFinset]
  simp

theorem toDigits_encodeGrid (g : Grid) (hc : gridComplete g) (hr : gridRange g) :
    toDigits (encodeGrid g) = g := by
  funext i j
  have h1 := hc i j
  have h2 := hr i j
  simp only [toDigits, encodeGrid]
  omega

theorem toDigits_inj {f f' : Fin 9 → Fin 9 → Fin 9} (h : toDigits f = toDigits f') :
    f = f' := by
  funext i j
  have h2 := congrFun (congrFun h i) j
  simp only [toDigits] at h2
  exact Fin.ext (by omega)

theorem numSolutions_def (g : Grid) : numSolutions g = (completionsFinset g).card := by
  rw [numSolutions]

theorem one_le_numSolutions_iff (g : Grid) :
    1 ≤ numSolutions g ↔ ∃ h, isCompletionOf h g := by
  rw [numSolutions_def, Nat.one_le_iff_ne_zero, Ne, Finset.card_eq_zero, ← ne_eq,
    ← Finset.nonempty_iff_ne_empty]
  constructor
  · rintro ⟨f, hf⟩
    exact ⟨toDigits f, (mem_completionsFinset g f).mp hf⟩
  · rintro ⟨h, hcomp⟩
    exact ⟨encodeGrid h, (mem_completionsFinset g _).mpr
      (by rwa [toDigits_encodeGrid h hcomp.2.1 hcomp.2.2.1])⟩

theorem completions_mono {p q : Grid} (hpq : gridExtends p q) :
    completionsFinset q ⊆ completionsFinset p := by
  intro f hf
  rw [mem_completionsFinset] at hf ⊢
  obtain ⟨hext, hc, hr, hv⟩ := hf
  refine ⟨fun i j hne => ?_, hc, hr, hv⟩
  have hq := hpq i j hne
  rw [hext i j (by rw [hq]; exact hne), hq]

theorem numSolutions_complete (g : Grid) (hc : gridComplete g) (hr : gridRange g)
    (hv : gridValid g) : numSolutions g = 1 := by
  rw [numSolutions_def, Finset.card_eq_one]
  refine ⟨encodeGrid g, ?_⟩
  ext f
  rw [mem_completionsFinset, Finset.mem_singleton]
  constructor
  · rintro ⟨hext, _, _, _⟩
    have heq : toDigits f = g := by
      funext i j
      exact hext i j (hc i j)
    exact toDigits_inj (heq.trans (toDigits_encodeGrid g hc hr).symm)
  · rintro rfl
    rw [toDigits_encodeGrid g hc hr]
    exact ⟨fun i j _ => rfl, hc, hr, hv⟩

theorem completions_fiber (g : Grid) (r c : Fin 9) (hrc : g r c = 0) (v : Fin 9) :
    (completionsFinset g).filter (fun f => f r c = v) =
      completionsFinset (gset g r c (v.val + 1)) := by
  ext f
  rw [Finset.mem_filter, mem_completionsFinset, mem_completionsFinset]
  constructor
  · rintro ⟨⟨hext, hc, hr, hv⟩, hf⟩
    refine ⟨?_, hc, hr, hv⟩
    intro i j hne
    by_cases hij : i = r ∧ j = c
    · obtain ⟨rfl, rfl⟩ := hij
      rw [gset_self]
      simp [toDigits, hf]
    · rw [gset_ne _ _ _ _ _ _ hij] at hne ⊢
      exact hext i j hne
  · rintro ⟨hext, hc, hr, hv⟩
    have hfv : f r c = v := by
      have h1 := hext r c (by rw [gset_self]; omega)
      rw [gset_self] at h1
      simp only [toDigits] at h1
      exact Fin.ext (by omega)
    refine ⟨⟨?_, hc, hr, hv⟩, hfv⟩
    intro i j hne
    have hij : ¬(i = r ∧ j = c) := by
      rintro ⟨rfl, rfl⟩; exact hne hrc
    have h2 := hext i j (by rw [gset_ne _ _ _ _ _ _ hij]; exact hne)
    rwa [gset_ne _ _ _ _ _ _ hij] at h2

theorem sum_univ_fin9_map (F : Nat → Nat) :
    (∑ v : Fin 9, F (v.val + 1)) = ((List.range' 1 9).map F).sum := by
  rw [show List.range' 1 9 = [1,2,3,4,5,6,7,8,9] from rfl]
  simp [Fin.sum_univ_succ]

theorem numSolutions_partition (g : Grid) (r c : Fin 9) (hrc : g r c = 0) :
    numSolutions g = ((List.range' 1 9).map fun d => numSolutions (gset g r c d)).sum := by
  have h1 : (completionsFinset g).card
      = ∑ v : Fin 9, ((completionsFinset g).filter (fun f => f r c = v)).card :=
    Finset.card_eq_sum_card_fiberwise (fun f _ => Finset.mem_univ (f r c))
  have h2 : ∀ v : Fin 9, ((completionsFinset g).filter (fun f => f r c = v)).card
      = numSolutions (gset g r c (v.val + 1)) := fun v => by
    rw [completions_fiber g r c hrc v, numSolutions_def]
  rw [numSolutions_def, h1, Finset.sum_congr rfl (fun v _ => h2 v)]
  exact sum_univ_fin9_map fun d => numSolutions (gset g r c d)

theorem isValidPlacement_true_forms (g : Grid) (r c : Fin 9) (num : Nat)
    (h : isValidPlacement g r c num = true) :
    (∀ x, g r x ≠ num) ∧ (∀ x, g x c ≠ num) ∧
    (∀ x y : Fin 9, x.val / 3 = r.val / 3 → y.val / 3 = c.val / 3 → g x y ≠ num) := by
  have hne : ¬(isValidPlacement g r c num = false) := by simp [h]
  rw [isValidPlacement_false_iff] at hne
  push_neg at hne
  exact hne

theorem numSolutions_gset_invalid (g : Grid) (r c : Fin 9) (d : Nat)
    (hrc : g r c = 0) (hd : d ≠ 0)
    (hinv : isValidPlacement g r c d = false) :
    numSolutions (gset g r c d) = 0 := by
  rw [numSolutions_def, Finset.card_eq_zero, Finset.eq_empty_iff_forall_not_mem]
  intro f hf
  rw [mem_completionsFinset] at hf
  obtain ⟨hext, hc, hr, hv⟩ := hf
  have hfrc : toDigits f r c = d := by
    have h1 := hext r c (by rw [gset_self]; exact hd)
    rwa [gset_self] at h1
  rw [isValidPlacement_false_iff] at hinv
  rcases hinv with ⟨x, hx⟩ | ⟨x, hx⟩ | ⟨x, y, hbx, hby, hxy⟩
  · have hxc : x ≠ c := by rintro rfl; rw [hrc] at hx; exact hd hx.symm
    have hfx : toDigits f r x = d := by
      have hne : gset g r c d r x ≠ 0 := by
        rw [gset_ne _ _ _ _ _ _ (by rintro ⟨_, rfl⟩; exact hxc rfl), hx]
        exact hd
      have h2 := hext r x hne
      rwa [gset_ne _ _ _ _ _ _ (by rintro ⟨_, rfl⟩; exact hxc rfl), hx] at h2
    exact hv.1 r c x (fun e => hxc e.symm) (by rw [hfrc]; exact hd)
      (hfrc.trans hfx.symm)
  · have hxr : x ≠ r := by rintro rfl; rw [hrc] at hx; exact hd hx.symm
    have hfx : toDigits f x c = d := by
      have hne : gset g r c d x c ≠ 0 := by
        rw [gset_ne _ _ _ _ _ _ (by rintro ⟨rfl, _⟩; exact hxr rfl), hx]
        exact hd
      have h2 := hext x c hne
      rwa [gset_ne _ _ _ _ _ _ (by rintro ⟨rfl, _⟩; exact hxr rfl), hx] at h2
    exact hv.2.1 c r x (fun e => hxr e.symm) (by rw [hfrc]; exact hd)
      (hfrc.trans hfx.symm)
  · have hxyrc : ¬(x = r ∧ y = c) := by
      rintro ⟨rfl, rfl⟩; rw [hrc] at hxy; exact hd hxy.symm
    have hfx : toDigits f x y = d := by
      have hne : gset g r c d x y ≠ 0 := by
        rw [gset_ne _ _ _ _ _ _ hxyrc, hxy]; exact hd
      have h2 := hext x y hne
      rwa [gset_ne _ _ _ _ _ _ hxyrc, hxy] at h2
    have hne2 : r ≠ x ∨ c ≠ y := by
      by_contra hcon
      push_neg at hcon
      exact hxyrc ⟨hcon.1.symm, hcon.2.symm⟩
    exact hv.2.2 r c x y hbx.symm hby.symm hne2 (by rw [hfrc]; exact hd)
      (hfrc.trans hfx.symm)

theorem gridValid_gset (g : Grid) (r c : Fin 9) (d : Nat) (hv : gridValid g)
    (hval : isValidPlacement g r c d = true) :
    gridValid (gset g r c d) := by
  obtain ⟨H1, H2, H3⟩ := isValidPlacement_true_forms g r c d hval
  obtain ⟨V1, V2, V3⟩ := hv
  refine ⟨?_, ?_, ?_⟩
  · intro r₀ c₁ c₂ hne h0
    by_cases e1 : r₀ = r ∧ c₁ = c
    · obtain ⟨rfl, rfl⟩ := e1
      rw [gset_self] at h0 ⊢
      rw [gset_ne _ _ _ _ _ _ (by rintro ⟨_, rfl⟩; exact hne rfl)]
      exact fun hd => H1 c₂ hd.symm
    · rw [gset_ne _ _ _ _ _ _ e1] at h0 ⊢
      by_cases e2 : r₀ = r ∧ c₂ = c
      · obtain ⟨rfl, rfl⟩ := e2
        rw [gset_self]
        exact H1 c₁
      · rw [gset_ne _ _ _ _ _ _ e2]
        exact V1 r₀ c₁ c₂ hne h0
  · intro c₀ r₁ r₂ hne h0
    by_cases e1 : r₁ = r ∧ c₀ = c
    · obtain ⟨rfl, rfl⟩ := e1
      rw [gset_self] at h0 ⊢
      rw [gset_ne _ _ _ _ _ _ (by rintro ⟨rfl, _⟩; exact hne rfl)]
      exact fun hd => H2 r₂ hd.symm
    · rw [gset_ne _ _ _ _ _ _ e1] at h0 ⊢
      by_cases e2 : r₂ = r ∧ c₀ = c
      · obtain ⟨rfl, rfl⟩ := e2
        rw [gset_self]
        exact H2 r₁
      · rw [gset_ne _ _ _ _ _ _ e2]
        exact V2 c₀ r₁ r₂ hne h0
  · intro r₁ c₁ r₂ c₂ hb1 hb2 hne h0
    by_cases e1 : r₁ = r ∧ c₁ = c
    · rw [e1.1, e1.2] at h0 ⊢
      rw [gset_self] at h0 ⊢
      have e2 : ¬(r₂ = r ∧ c₂ = c) := by
        rintro ⟨f1, f2⟩
        rcases hne with h | h
        · exact h (e1.1.trans f1.symm)
        · exact h (e1.2.trans f2.symm)
      rw [gset_ne _ _ _ _ _ _ e2]
      rw [e1.1] at hb1
      rw [e1.2] at hb2
      exact fun hd => H3 r₂ c₂ hb1.symm hb2.symm hd.symm
    · rw [gset_ne _ _ _ _ _ _ e1] at h0 ⊢
      by_cases e2 : r₂ = r ∧ c₂ = c
      · rw [e2.1, e2.2, gset_self]
        rw [e2.1] at hb1
        rw [e2.2] at hb2
        exact H3 r₁ c₁ hb1 hb2
      · rw [gset_ne _ _ _ _ _ _ e2]
        exact V3 r₁ c₁ r₂ c₂ hb1 hb2 hne h0

theorem gridRange_gset (g : Grid) (r c : Fin 9) (d : Nat) (hr : gridRange g)
    (hd : d ≤ 9) : gridRange (gset g r c d) := by
  intro i j
  by_cases e : i = r ∧ j = c
  · obtain ⟨rfl, rfl⟩ := e; rw [gset_self]; exact hd
  · rw [gset_ne _ _ _ _ _ _ e]; exact hr i j

/-- Count of empty cells; the recursion depth of every search in the source
is bounded by this number plus one. -/
def emptyCount (g : Grid) : Nat :=
  (Finset.univ.filter fun p : Fin 9 × Fin 9 => g p.1 p.2 = 0).card

theorem emptyCount_le (g : Grid) : emptyCount g ≤ 81 := by
  unfold emptyCount
  calc (Finset.univ.filter fun p : Fin 9 × Fin 9 => g p.1 p.2 = 0).card
      ≤ (Finset.univ : Finset (Fin 9 × Fin 9)).card := Finset.card_filter_le _ _
    _ = 81 := by simp

theorem emptyCount_gset_lt (g : Grid) (r c : Fin 9) (d : Nat) (hrc : g r c = 0)
    (hd : d ≠ 0) : emptyCount (gset g r c d) < emptyCount g := by
  unfold emptyCount
  have hsub : (Finset.univ.filter fun p : Fin 9 × Fin 9 => gset g r c d p.1 p.2 = 0)
      = (Finset.univ.filter fun p : Fin 9 × Fin 9 => g p.1 p.2 = 0).erase (r, c) := by
    ext p
    simp only [Finset.mem_filter, Finset.mem_univ, true_and, Finset.mem_erase]
    constructor
    · intro hp
      have hne : ¬(p.1 = r ∧ p.2 = c) := by
        rintro ⟨h1, h2⟩
        rw [h1, h2, gset_self] at hp
        exact hd hp
      rw [gset_ne _ _ _ _ _ _ hne] at hp
      exact ⟨by rintro rfl; exact hne ⟨rfl, rfl⟩, hp⟩
    · rintro ⟨hne, hp⟩
      have hne2 : ¬(p.1 = r ∧ p.2 = c) := by
        rintro ⟨h1, h2⟩
        exact hne (Prod.ext h1 h2)
      rwa [gset_ne _ _ _ _ _ _ hne2]
  rw [hsub]
  apply Finset.card_erase_lt_of_mem
  simp [hrc]

theorem numSolutions_eq_zero_of_no_candidate (g : Grid) (r c : Fin 9)
    (hrc : g r c = 0)
    (h : ∀ d, 1 ≤ d → d ≤ 9 → isValidPlacement g r c d = false) :
    numSolutions g = 0 := by
  rw [numSolutions_partition g r c hrc]
  apply List.sum_eq_zero
  intro x hx
  rw [List.mem_map] at hx
  obtain ⟨d, hd, rfl⟩ := hx
  rw [List.mem_range'_1] at hd
  exact numSolutions_gset_invalid g r c d hrc (by omega) (h d (by omega) (by omega))

theorem isCompletionOf_of_gset {g : Grid} (r c : Fin 9) (d : Nat) (hrc : g r c = 0)
    {h : Grid} (hcomp : isCompletionOf h (gset g r c d)) : isCompletionOf h g := by
  obtain ⟨hext, hc, hr, hv⟩ := hcomp
  refine ⟨?_, hc, hr, hv⟩
  intro i j hne
  have hij : ¬(i = r ∧ j = c) := by rintro ⟨rfl, rfl⟩; exact hne hrc
  have h2 := hext i j (by rw [gset_ne _ _ _ _ _ _ hij]; exact hne)
  rwa [gset_ne _ _ _ _ _ _ hij] at h2

theorem gridValid_of_extends {p full : Grid} (hpf : gridExtends p full)
    (hv : gridValid full) : gridValid p := by
  obtain ⟨V1, V2, V3⟩ := hv
  refine ⟨?_, ?_, ?_⟩
  · intro r c₁ c₂ hne h0
    by_cases h2 : p r c₂ = 0
    · rw [h2]; exact h0
    · rw [← hpf r c₁ h0, ← hpf r c₂ h2]
      exact V1 r c₁ c₂ hne (by rw [hpf r c₁ h0]; exact h0)
  · intro c r₁ r₂ hne h0
    by_cases h2 : p r₂ c = 0
    · rw [h2]; exact h0
    · rw [← hpf r₁ c h0, ← hpf r₂ c h2]
      exact V2 c r₁ r₂ hne (by rw [hpf r₁ c h0]; exact h0)
  · intro r₁ c₁ r₂ c₂ hb1 hb2 hne h0
    by_cases h2 : p r₂ c₂ = 0
    · rw [h2]; exact h0
    · rw [← hpf r₁ c₁ h0, ← hpf r₂ c₂ h2]
      exact V3 r₁ c₁ r₂ c₂ hb1 hb2 hne (by rw [hpf r₁ c₁ h0]; exact h0)

theorem gridRange_of_extends {p full : Grid} (hpf : gridExtends p full)
    (hr : gridRange full) : gridRange p := by
  intro i j
  by_cases h : p i j = 0
  · rw [h]; omega
  · rw [← hpf i j h]; exact hr i j


/-- Candidate digits num = 1..9 accepted by isValidPlacement at (i, j), in
ascending order (the possibilities list built by the class-based and
functional modules). -/
def possList (g : Grid) (i j : Fin 9) : List Nat :=
  (List.range' 1 9).filter fun num => isValidPlacement g i j num

/-- Number of candidate digits at (i, j) (the possibilities counter of
sudoku-core.js). -/
def candCount (g : Grid) (i j : Fin 9) : Nat :=
  (List.range' 1 9).countP fun num => isValidPlacement g i j num

theorem candCount_eq_length (g : Grid) (i j : Fin 9) :
    candCount g i j = (possList g i j).length :=
  List.countP_eq_length_filter _ _

theorem candCount_le (g : Grid) (i j : Fin 9) : candCount g i j ≤ 9 := by
  calc candCount g i j ≤ (List.range' 1 9).length := List.countP_le_length _
    _ = 9 := by rw [List.length_range']

theorem mem_possList (g : Grid) (i j : Fin 9) (d : Nat) :
    d ∈ possList g i j ↔ (1 ≤ d ∧ d ≤ 9) ∧ isValidPlacement g i j d = true := by
  rw [possList, List.mem_filter, List.mem_range'_1]
  constructor
  · rintro ⟨⟨a, b⟩, hv⟩
    exact ⟨⟨a, by omega⟩, hv⟩
  · rintro ⟨⟨a, b⟩, hv⟩
    exact ⟨⟨a, by omega⟩, hv⟩

theorem possList_nil_invalid (g : Grid) (r c : Fin 9) (h : possList g r c = [])
    (d : Nat) (h1 : 1 ≤ d) (h9 : d ≤ 9) : isValidPlacement g r c d = false := by
  rw [Bool.eq_false_iff, Ne]
  intro hval
  have hd : d ∈ possList g r c := (mem_possList g r c d).mpr ⟨⟨h1, h9⟩, hval⟩
  rw [h] at hd
  exact List.not_mem_nil d hd

theorem sum_map_filter_eq (p : Nat → Bool) (F : Nat → Nat) :
    ∀ l : List Nat, (∀ x ∈ l, p x = false → F x = 0) →
      ((l.filter p).map F).sum = (l.map F).sum := by
  intro l
  induction l with
  | nil => intro _; rfl
  | cons a l ih =>
    intro h
    have htail := ih fun x hx => h x (List.mem_cons_of_mem a hx)
    by_cases hp : p a = true
    · simp [List.filter_cons, hp, htail]
    · rw [Bool.not_eq_true] at hp
      have ha : F a = 0 := h a (List.mem_cons_self a l) hp
      simp [List.filter_cons, hp, ha, htail]

/-- Partition of the solution count over the candidate list at an empty
cell: digits rejected by isValidPlacement contribute no completion. -/
theorem numSolutions_partition_possList (g : Grid) (r c : Fin 9) (hrc : g r c = 0) :
    numSolutions g = (((possList g r c).map fun d => numSolutions (gset g r c d)).sum) := by
  rw [numSolutions_partition g r c hrc, possList]
  rw [sum_map_filter_eq _ _ _ ?inv]
  case inv =>
    intro d hd hfalse
    rw [List.mem_range'_1] at hd
    exact numSolutions_gset_invalid g r c d hrc (by omega) hfalse

namespace SudokuCore

/-- Inner column loop of the MRV scan in countSolutionsFast (sudoku-core.js
lines 174-198).  State: (cell recorded in row/col so far, current
minPossibilities).  For an empty cell with exactly one candidate the source
sets row/col and breaks out of the inner loop WITHOUT updating
minPossibilities; the state is returned unchanged in its second component,
exactly as the source leaves minPossibilities. -/
def scanRow (g : Grid) (i : Fin 9) :
    List (Fin 9) → Option (Fin 9 × Fin 9) × Nat → Option (Fin 9 × Fin 9) × Nat
  | [], st => st
  | j :: js, st =>
    if g i j = 0 then
      if candCount g i j = 1 then (some (i, j), st.2)
      else if candCount g i j < st.2 then scanRow g i js (some (i, j), candCount g i j)
      else scanRow g i js st
    else scanRow g i js st

/-- Outer row loop of the MRV scan (line 199): after each row the source
breaks when row !== -1 and minPossibilities === 1. -/
def scanGrid (g : Grid) :
    List (Fin 9) → Option (Fin 9 × Fin 9) × Nat → Option (Fin 9 × Fin 9) × Nat
  | [], st => st
  | i :: is, st =>
    if (scanRow g i (List.finRange 9) st).1.isSome
        ∧ (scanRow g i (List.finRange 9) st).2 = 1 then
      scanRow g i (List.finRange 9) st
    else scanGrid g is (scanRow g i (List.finRange 9) st)

/-- Cell (row, col) selected by countSolutionsFast to branch on; none when
row stays -1, i.e. no empty cell was seen. -/
def selectCell (g : Grid) : Option (Fin 9 × Fin 9) :=
  (scanGrid g (List.finRange 9) (none, 10)).1

theorem scanRow_some_empty (g : Grid) (i : Fin 9) :
    ∀ (js : List (Fin 9)) (st : Option (Fin 9 × Fin 9) × Nat),
      (∀ q, st.1 = some q → g q.1 q.2 = 0) →
      ∀ q, (scanRow g i js st).1 = some q → g q.1 q.2 = 0 := by
  intro js
  induction js with
  | nil =>
    intro st h q hq
    rw [scanRow] at hq
    exact h q hq
  | cons j js ih =>
    intro st h q hq
    rw [scanRow] at hq
    split_ifs at hq with hgij h1 h2
    · simp only [Option.some.injEq] at hq
      rw [← hq]
      exact hgij
    · refine ih _ ?_ q hq
      intro q' hq'
      simp only [Option.some.injEq] at hq'
      rw [← hq']
      exact hgij
    · exact ih _ h q hq
    · exact ih _ h q hq

theorem scanRow_isSome_mono (g : Grid) (i : Fin 9) :
    ∀ (js : List (Fin 9)) (st : Option (Fin 9 × Fin 9) × Nat),
      st.1.isSome → (scanRow g i js st).1.isSome := by
  intro js
  induction js with
  | nil =>
    intro st h
    rw [scanRow]
    exact h
  | cons j js ih =>
    intro st h
    rw [scanRow]
    split_ifs with hgij h1 h2
    · simp
    · exact ih _ (by simp)
    · exact ih _ h
    · exact ih _ h

theorem scanRow_none_eq (g : Grid) (i : Fin 9) :
    ∀ (js : List (Fin 9)) (st : Option (Fin 9 × Fin 9) × Nat),
      (st.1 = none → st.2 = 10) →
      (scanRow g i js st).1 = none → scanRow g i js st = st := by
  intro js
  induction js with
  | nil =>
    intro st _ _
    rw [scanRow]
  | cons j js ih =>
    intro st hinv hnone
    rw [scanRow] at hnone ⊢
    by_cases hgij : g i j = 0
    · rw [if_pos hgij] at hnone ⊢
      by_cases h1 : candCount g i j = 1
      · rw [if_pos h1] at hnone
        exact absurd hnone (by simp)
      · rw [if_neg h1] at hnone ⊢
        by_cases h2 : candCount g i j < st.2
        · rw [if_pos h2] at hnone
          have hm := scanRow_isSome_mono g i js (some (i, j), candCount g i j) (by simp)
          rw [hnone] at hm
          simp at hm
        · -- candCount not below minPossibilities: only possible when st already
          -- records a cell, and then the result stays some, contradiction
          cases hst : st.1 with
          | some q =>
            rw [if_neg h2] at hnone
            have hm := scanRow_isSome_mono g i js st (by rw [hst]; rfl)
            rw [hnone] at hm
            simp at hm
          | none =>
            have h10 : st.2 = 10 := hinv hst
            have hle : candCount g i j ≤ 9 := candCount_le g i j
            rw [h10] at h2
            omega
    · rw [if_neg hgij] at hnone ⊢
      exact ih st hinv hnone

theorem scanRow_hits (g : Grid) (i : Fin 9) :
    ∀ (js : List (Fin 9)) (st : Option (Fin 9 × Fin 9) × Nat),
      (st.1 = none → st.2 = 10) →
      (∃ j ∈ js, g i j = 0) → (scanRow g i js st).1.isSome := by
  intro js
  induction js with
  | nil =>
    rintro st _ ⟨j, hj, _⟩
    exact absurd hj (List.not_mem_nil j)
  | cons j js ih =>
    rintro st hinv ⟨j', hj', hempty⟩
    rw [scanRow]
    by_cases hgij : g i j = 0
    · rw [if_pos hgij]
      by_cases h1 : candCount g i j = 1
      · rw [if_pos h1]
        simp
      · rw [if_neg h1]
        by_cases h2 : candCount g i j < st.2
        · rw [if_pos h2]
          exact scanRow_isSome_mono g i js _ (by simp)
        · rw [if_neg h2]
          cases hst : st.1 with
          | some q => exact scanRow_isSome_mono g i js st (by rw [hst]; rfl)
          | none =>
            have h10 : st.2 = 10 := hinv hst
            have hle : candCount g i j ≤ 9 := candCount_le g i j
            rw [h10] at h2
            omega
    · rw [if_neg hgij]
      cases hst : st.1 with
      | some q => exact scanRow_isSome_mono g i js st (by rw [hst]; rfl)
      | none =>
        rcases List.mem_cons.mp hj' with rfl | hj'tail
        · exact absurd hempty hgij
        · exact ih st hinv ⟨j', hj'tail, hempty⟩

theorem scanGrid_some_empty (g : Grid) :
    ∀ (is : List (Fin 9)) (st : Option (Fin 9 × Fin 9) × Nat),
      (∀ q, st.1 = some q → g q.1 q.2 = 0) →
      ∀ q, (scanGrid g is st).1 = some q → g q.1 q.2 = 0 := by
  intro is
  induction is with
  | nil =>
    intro st h q hq
    rw [scanGrid] at hq
    exact h q hq
  | cons i is ih =>
    intro st h q hq
    rw [scanGrid] at hq
    split_ifs at hq with hbreak
    · exact scanRow_some_empty g i _ st h q hq
    · exact ih _ (scanRow_some_empty g i _ st h) q hq

theorem scanGrid_isSome_mono (g : Grid) :
    ∀ (is : List (Fin 9)) (st : Option (Fin 9 × Fin 9) × Nat),
      st.1.isSome → (scanGrid g is st).1.isSome := by
  intro is
  induction is with
  | nil =>
    intro st h
    rw [scanGrid]
    exact h
  | cons i is ih =>
    intro st h
    rw [scanGrid]
    split_ifs with hbreak
    · exact scanRow_isSome_mono g i _ st h
    · exact ih _ (scanRow_isSome_mono g i _ st h)

theorem scanGrid_hits (g : Grid) :
    ∀ (is : List (Fin 9)) (st : Option (Fin 9 × Fin 9) × Nat),
      (st.1 = none → st.2 = 10) →
      (∃ i ∈ is, ∃ j, g i j = 0) → (scanGrid g is st).1.isSome := by
  intro is
  induction is with
  | nil =>
    rintro st _ ⟨i, hi, _⟩
    exact absurd hi (List.not_mem_nil i)
  | cons i is ih =>
    rintro st hinv ⟨i', hi', j', hempty⟩
    rw [scanGrid]
    rcases List.mem_cons.mp hi' with rfl | hitail
    · have hrow : (scanRow g i' (List.finRange 9) st).1.isSome :=
        scanRow_hits g i' _ st hinv ⟨j', List.mem_finRange j', hempty⟩
      split_ifs with hbreak
      · exact hrow
      · exact scanGrid_isSome_mono g is _ hrow
    · cases hst1 : (scanRow g i (List.finRange 9) st).1 with
      | some q =>
        split_ifs with hbreak
        · rw [hst1]; rfl
        · exact scanGrid_isSome_mono g is _ (by rw [hst1]; rfl)
      | none =>
        have heq : scanRow g i (List.finRange 9) st = st :=
          scanRow_none_eq g i _ st hinv hst1
        split_ifs with hbreak
        · simp at hbreak
        · rw [heq]
          exact ih st hinv ⟨i', hitail, j', hempty⟩

theorem selectCell_some_empty (g : Grid) (q : Fin 9 × Fin 9)
    (h : selectCell g = some q) : g q.1 q.2 = 0 := by
  exact scanGrid_some_empty g _ _ (by intro q' hq'; simp at hq') q h

theorem selectCell_none (g : Grid) (h : selectCell g = none) : gridComplete g := by
  intro i j
  intro hempty
  have : (scanGrid g (List.finRange 9) (none, 10)).1.isSome :=
    scanGrid_hits g _ _ (fun _ => rfl) ⟨i, List.mem_finRange i, j, hempty⟩
  rw [selectCell] at h
  rw [h] at this
  simp at this

end SudokuCore

namespace SudokuCore

/-- Digit loop of countSolutionsFast (sudoku-core.js lines 209-220): for
num = 1..9, if the placement is valid, place it, recurse, restore the cell
to 0, and return as soon as the count has reached 2. -/
def countLoop (next : Grid → Nat → Nat × Grid) (r c : Fin 9) :
    List Nat → Grid → Nat → Nat × Grid
  | [], g, cnt => (cnt, g)
  | d :: ds, g, cnt =>
    if isValidPlacement g r c d then
      let res := next (gset g r c d) cnt
      let g2 := gset res.2 r c 0
      if 2 ≤ res.1 then (res.1, g2)
      else countLoop next r c ds g2 res.1
    else countLoop next r c ds g cnt

/-- countSolutionsFast (sudoku-core.js lines 163-221) with the counter
object passed and returned explicitly; fuel bounds the recursion depth,
which in the source is bounded by the number of empty cells plus one. -/
def countAux : Nat → Grid → Nat → Nat × Grid
  | 0, g, cnt => (cnt, g)
  | fuel + 1, g, cnt =>
    if 2 ≤ cnt then (cnt, g)
    else
      match selectCell g with
      | none => (cnt + 1, g)
      | some (r, c) => countLoop (countAux fuel) r c (List.range' 1 9) g cnt

/-- countSolutionsFast as its callers use it: fresh counter starting at 0,
result read from the counter afterwards. -/
def countSolutionsFast (g : Grid) : Nat := (countAux (emptyCount g + 1) g 0).1

/-- hasUniqueSolution (sudoku-core.js lines 228-233): deep-copies the grid,
runs countSolutionsFast with a fresh counter and compares the count with 1.
The JSON deep copy is implicit in the purity of the embedding. -/
def hasUniqueSolution (g : Grid) : Bool := countSolutionsFast g == 1

theorem countLoop_restore (next : Grid → Nat → Nat × Grid) (r c : Fin 9)
    (hnext : ∀ g cnt, (next g cnt).2 = g) :
    ∀ (ds : List Nat) (g : Grid) (cnt : Nat), g r c = 0 →
      (countLoop next r c ds g cnt).2 = g := by
  intro ds
  induction ds with
  | nil =>
    intro g cnt _
    rw [countLoop]
  | cons d ds ih =>
    intro g cnt hrc
    rw [countLoop]
    by_cases hval : isValidPlacement g r c d
    · rw [if_pos hval]
      simp only [hnext (gset g r c d) cnt, gset_cancel g r c d hrc]
      by_cases h2 : 2 ≤ (next (gset g r c d) cnt).1
      · rw [if_pos h2]
      · rw [if_neg h2]
        exact ih g _ hrc
    · rw [if_neg hval]
      exact ih g cnt hrc

theorem countAux_restore : ∀ (fuel : Nat) (g : Grid) (cnt : Nat),
    (countAux fuel g cnt).2 = g := by
  intro fuel
  induction fuel with
  | zero => intro g cnt; rw [countAux]
  | succ fuel ih =>
    intro g cnt
    rw [countAux]
    by_cases h2 : 2 ≤ cnt
    · rw [if_pos h2]
    · rw [if_neg h2]
      cases hsel : selectCell g with
      | none => rfl
      | some q =>
        obtain ⟨r, c⟩ := q
        exact countLoop_restore (countAux fuel) r c ih _ g cnt
          (selectCell_some_empty g (r, c) hsel)

theorem countLoop_spec (fuel : Nat) (g : Grid) (r c : Fin 9)
    (hv : gridValid g) (hr : gridRange g) (hrc : g r c = 0)
    (hfuel : emptyCount g ≤ fuel)
    (IH : ∀ g' cnt', gridValid g' → gridRange g' → cnt' ≤ 2 → emptyCount g' < fuel →
      (countAux fuel g' cnt').1 = min (cnt' + numSolutions g') 2) :
    ∀ (ds : List Nat) (cnt : Nat), cnt ≤ 2 → (∀ d ∈ ds, 1 ≤ d ∧ d ≤ 9) →
      (countLoop (countAux fuel) r c ds g cnt).1
        = min (cnt + ((ds.map fun d => numSolutions (gset g r c d)).sum)) 2 := by
  intro ds
  induction ds with
  | nil =>
    intro cnt hcnt _
    rw [countLoop]
    simp only [List.map_nil, List.sum_nil]
    omega
  | cons d ds ih =>
    intro cnt hcnt hds
    obtain ⟨hd1, hd9⟩ := hds d (List.mem_cons_self d ds)
    have hdtail : ∀ d' ∈ ds, 1 ≤ d' ∧ d' ≤ 9 :=
      fun d' hd' => hds d' (List.mem_cons_of_mem d hd')
    rw [countLoop]
    simp only [List.map_cons, List.sum_cons]
    by_cases hval : isValidPlacement g r c d
    · rw [if_pos hval]
      have hvalid2 : gridValid (gset g r c d) := gridValid_gset g r c d hv hval
      have hrange2 : gridRange (gset g r c d) := gridRange_gset g r c d hr (by omega)
      have hlt : emptyCount (gset g r c d) < fuel :=
        lt_of_lt_of_le (emptyCount_gset_lt g r c d hrc (by omega)) hfuel
      have hres1 : (countAux fuel (gset g r c d) cnt).1
          = min (cnt + numSolutions (gset g r c d)) 2 :=
        IH _ _ hvalid2 hrange2 hcnt hlt
      have hres2 : (countAux fuel (gset g r c d) cnt).2 = gset g r c d :=
        countAux_restore fuel _ cnt
      simp only [hres1, hres2, gset_cancel g r c d hrc]
      by_cases hbig : 2 ≤ cnt + numSolutions (gset g r c d)
      · rw [if_pos (by omega)]
        omega
      · rw [if_neg (by omega)]
        have heq : min (cnt + numSolutions (gset g r c d)) 2
            = cnt + numSolutions (gset g r c d) := by omega
        rw [heq, ih _ (by omega) hdtail]
        omega
    · rw [if_neg hval]
      have hzero : numSolutions (gset g r c d) = 0 :=
        numSolutions_gset_invalid g r c d hrc (by omega)
          (by rw [Bool.eq_false_iff]; exact hval)
      rw [ih cnt hcnt hdtail, hzero]
      omega

theorem countAux_spec : ∀ (fuel : Nat) (g : Grid) (cnt : Nat),
    gridValid g → gridRange g → cnt ≤ 2 → emptyCount g < fuel →
    (countAux fuel g cnt).1 = min (cnt + numSolutions g) 2 := by
  intro fuel
  induction fuel with
  | zero =>
    intro g cnt _ _ _ hfuel
    omega
  | succ fuel ih =>
    intro g cnt hv hr hcnt hfuel
    rw [countAux]
    by_cases h2 : 2 ≤ cnt
    · rw [if_pos h2]
      omega
    · rw [if_neg h2]
      cases hsel : selectCell g with
      | none =>
        have hc : gridComplete g := selectCell_none g hsel
        have h1 : numSolutions g = 1 := numSolutions_complete g hc hr hv
        simp only [h1]
        omega
      | some q =>
        obtain ⟨r, c⟩ := q
        have hrc : g r c = 0 := selectCell_some_empty g (r, c) hsel
        have hloop := countLoop_spec fuel g r c hv hr hrc (by omega) ih
          (List.range' 1 9) cnt hcnt
          (by intro d hd; rw [List.mem_range'_1] at hd; omega)
        rw [hloop, ← numSolutions_partition g r c hrc]

theorem countSolutionsFast_spec (g : Grid) (hv : gridValid g) (hr : gridRange g) :
    countSolutionsFast g = min (numSolutions g) 2 := by
  rw [countSolutionsFast, countAux_spec (emptyCount g + 1) g 0 hv hr (by omega) (by omega)]
  omega

end SudokuCore

theorem one_le_sum_map_iff (F : Nat → Nat) :
    ∀ l : List Nat, 1 ≤ (l.map F).sum ↔ ∃ d ∈ l, 1 ≤ F d := by
  intro l
  induction l with
  | nil => simp
  | cons a l ih =>
    rw [List.map_cons, List.sum_cons]
    constructor
    · intro h
      by_cases ha : 1 ≤ F a
      · exact ⟨a, List.mem_cons_self a l, ha⟩
      · have h2 : 1 ≤ (l.map F).sum := by omega
        obtain ⟨d, hd, hFd⟩ := ih.mp h2
        exact ⟨d, List.mem_cons_of_mem a hd, hFd⟩
    · rintro ⟨d, hd, hFd⟩
      rcases List.mem_cons.mp hd with rfl | hd2
      · omega
      · have := ih.mpr ⟨d, hd2, hFd⟩
        omega

/-- Solvability expressed through the candidate list of an empty cell. -/
theorem one_le_numSolutions_iff_possList (g : Grid) (r c : Fin 9) (hrc : g r c = 0) :
    1 ≤ numSolutions g ↔ ∃ d ∈ possList g r c, 1 ≤ numSolutions (gset g r c d) := by
  rw [numSolutions_partition_possList g r c hrc, one_le_sum_map_iff]

theorem one_le_numSolutions_iff_range (g : Grid) (r c : Fin 9) (hrc : g r c = 0) :
    1 ≤ numSolutions g ↔ ∃ d ∈ List.range' 1 9, 1 ≤ numSolutions (gset g r c d) := by
  rw [numSolutions_partition g r c hrc, one_le_sum_map_iff]

theorem head?_mem {α : Type} {l : List α} {a : α} (h : l.head? = some a) : a ∈ l := by
  cases l with
  | nil => simp at h
  | cons b t =>
    simp only [List.head?_cons, Option.some.injEq] at h
    rw [← h]
    exact List.mem_cons_self b t

/-- Common digit loop of the backtracking solvers (sudoku-core.js solveGrid
lines 61-71 and solveGridWithMRV lines 112-122, and SudokuSolver.solveGrid
lines 106-118): for each candidate in order, check validity, place it,
recurse; on success propagate the solved grid, otherwise reset the cell to
0 and try the next candidate; exhausting the list reports failure. -/
def solveLoop (next : Grid → Bool × Grid) (r c : Fin 9) :
    List Nat → Grid → Bool × Grid
  | [], g => (false, g)
  | d :: ds, g =>
    if isValidPlacement g r c d then
      let res := next (gset g r c d)
      if res.1 then (true, res.2)
      else solveLoop next r c ds (gset res.2 r c 0)
    else solveLoop next r c ds g

/-- Digit loop of the functional module (part_000 solveGrid lines 131-143
and countSolutionsFast lines 207-225): identical to solveLoop except that
the candidates come from the stored possibility list and are placed without
re-checking isValidPlacement. -/
def solveLoopNR (next : Grid → Bool × Grid) (r c : Fin 9) :
    List Nat → Grid → Bool × Grid
  | [], g => (false, g)
  | d :: ds, g =>
    let res := next (gset g r c d)
    if res.1 then (true, res.2)
    else solveLoopNR next r c ds (gset res.2 r c 0)

theorem solveLoop_restore (next : Grid → Bool × Grid) (r c : Fin 9)
    (hnext : ∀ g, (next g).1 = false → (next g).2 = g) :
    ∀ (ds : List Nat) (g : Grid), g r c = 0 →
      (solveLoop next r c ds g).1 = false → (solveLoop next r c ds g).2 = g := by
  intro ds
  induction ds with
  | nil =>
    intro g _ _
    rw [solveLoop]
  | cons d ds ih =>
    intro g hrc hfail
    rw [solveLoop] at hfail ⊢
    by_cases hval : isValidPlacement g r c d
    · rw [if_pos hval] at hfail ⊢
      by_cases hres : (next (gset g r c d)).1
      · rw [if_pos hres] at hfail
        simp at hfail
      · rw [if_neg hres] at hfail ⊢
        rw [Bool.not_eq_true] at hres
        rw [hnext _ hres, gset_cancel g r c d hrc] at hfail ⊢
        exact ih g hrc hfail
    · rw [if_neg hval] at hfail ⊢
      exact ih g hrc hfail

theorem solveLoopNR_restore (next : Grid → Bool × Grid) (r c : Fin 9)
    (hnext : ∀ g, (next g).1 = false → (next g).2 = g) :
    ∀ (ds : List Nat) (g : Grid), g r c = 0 →
      (solveLoopNR next r c ds g).1 = false → (solveLoopNR next r c ds g).2 = g := by
  intro ds
  induction ds with
  | nil =>
    intro g _ _
    rw [solveLoopNR]
  | cons d ds ih =>
    intro g hrc hfail
    rw [solveLoopNR] at hfail ⊢
    by_cases hres : (next (gset g r c d)).1
    · rw [if_pos hres] at hfail
      simp at hfail
    · rw [if_neg hres] at hfail ⊢
      rw [Bool.not_eq_true] at hres
      rw [hnext _ hres, gset_cancel g r c d hrc] at hfail ⊢
      exact ih g hrc hfail

theorem solveLoop_spec (next : Grid → Bool × Grid) (r c : Fin 9) (g : Grid)
    (hrc : g r c = 0)
    (hrestore : ∀ g', (next g').1 = false → (next g').2 = g')
    (hnext : ∀ d, 1 ≤ d → d ≤ 9 → isValidPlacement g r c d = true →
      (((next (gset g r c d)).1 = true ↔ 1 ≤ numSolutions (gset g r c d)) ∧
       ((next (gset g r c d)).1 = true →
         isCompletionOf (next (gset g r c d)).2 (gset g r c d)))) :
    ∀ ds : List Nat, (∀ d ∈ ds, 1 ≤ d ∧ d ≤ 9) →
      (((solveLoop next r c ds g).1 = true
          ↔ ∃ d ∈ ds, 1 ≤ numSolutions (gset g r c d)) ∧
       ((solveLoop next r c ds g).1 = true →
         isCompletionOf (solveLoop next r c ds g).2 g)) := by
  intro ds
  induction ds with
  | nil =>
    intro _
    rw [solveLoop]
    constructor
    · simp
    · intro h
      simp at h
  | cons d ds ih =>
    intro hds
    obtain ⟨hd1, hd9⟩ := hds d (List.mem_cons_self d ds)
    have hdtail := fun d' hd' => hds d' (List.mem_cons_of_mem d hd')
    rw [solveLoop]
    by_cases hval : isValidPlacement g r c d
    · rw [if_pos hval]
      obtain ⟨hiff, hcomp⟩ := hnext d hd1 hd9 hval
      by_cases hres : (next (gset g r c d)).1
      · rw [if_pos hres]
        constructor
        · constructor
          · intro _
            exact ⟨d, List.mem_cons_self d ds, hiff.mp hres⟩
          · intro _
            rfl
        · intro _
          exact isCompletionOf_of_gset r c d hrc (hcomp hres)
      · rw [if_neg hres]
        rw [Bool.not_eq_true] at hres
        rw [hrestore _ hres, gset_cancel g r c d hrc]
        have hzero : numSolutions (gset g r c d) = 0 := by
          have h := hiff
          rw [hres] at h
          simp at h
          exact h
        obtain ⟨ihiff, ihcomp⟩ := ih hdtail
        constructor
        · rw [ihiff]
          constructor
          · rintro ⟨d', hd', hnum⟩
            exact ⟨d', List.mem_cons_of_mem d hd', hnum⟩
          · rintro ⟨d', hd', hnum⟩
            rcases List.mem_cons.mp hd' with rfl | hd'2
            · omega
            · exact ⟨d', hd'2, hnum⟩
        · exact ihcomp
    · rw [if_neg hval]
      have hzero : numSolutions (gset g r c d) = 0 :=
        numSolutions_gset_invalid g r c d hrc (by omega)
          (by rw [Bool.eq_false_iff]; exact hval)
      obtain ⟨ihiff, ihcomp⟩ := ih hdtail
      constructor
      · rw [ihiff]
        constructor
        · rintro ⟨d', hd', hnum⟩
          exact ⟨d', List.mem_cons_of_mem d hd', hnum⟩
        · rintro ⟨d', hd', hnum⟩
          rcases List.mem_cons.mp hd' with rfl | hd'2
          · omega
          · exact ⟨d', hd'2, hnum⟩
      · exact ihcomp

theorem solveLoopNR_spec (next : Grid → Bool × Grid) (r c : Fin 9) (g : Grid)
    (hrc : g r c = 0)
    (hrestore : ∀ g', (next g').1 = false → (next g').2 = g')
    (hnext : ∀ d, 1 ≤ d → d ≤ 9 → isValidPlacement g r c d = true →
      (((next (gset g r c d)).1 = true ↔ 1 ≤ numSolutions (gset g r c d)) ∧
       ((next (gset g r c d)).1 = true →
         isCompletionOf (next (gset g r c d)).2 (gset g r c d)))) :
    ∀ ds : List Nat, (∀ d ∈ ds, d ∈ possList g r c) →
      (((solveLoopNR next r c ds g).1 = true
          ↔ ∃ d ∈ ds, 1 ≤ numSolutions (gset g r c d)) ∧
       ((solveLoopNR next r c ds g).1 = true →
         isCompletionOf (solveLoopNR next r c ds g).2 g)) := by
  intro ds
  induction ds with
  | nil =>
    intro _
    rw [solveLoopNR]
    constructor
    · simp
    · intro h
      simp at h
  | cons d ds ih =>
    intro hds
    obtain ⟨⟨hd1, hd9⟩, hval⟩ :=
      (mem_possList g r c d).mp (hds d (List.mem_cons_self d ds))
    have hdtail := fun d' hd' => hds d' (List.mem_cons_of_mem d hd')
    rw [solveLoopNR]
    obtain ⟨hiff, hcomp⟩ := hnext d hd1 hd9 hval
    by_cases hres : (next (gset g r c d)).1
    · rw [if_pos hres]
      constructor
      · constructor
        · intro _
          exact ⟨d, List.mem_cons_self d ds, hiff.mp hres⟩
        · intro _
          rfl
      · intro _
        exact isCompletionOf_of_gset r c d hrc (hcomp hres)
    · rw [if_neg hres]
      rw [Bool.not_eq_true] at hres
      rw [hrestore _ hres, gset_cancel g r c d hrc]
      have hzero : numSolutions (gset g r c d) = 0 := by
        have h := hiff
        rw [hres] at h
        simp at h
        exact h
      obtain ⟨ihiff, ihcomp⟩ := ih hdtail
      constructor
      · rw [ihiff]
        constructor
        · rintro ⟨d', hd', hnum⟩
          exact ⟨d', List.mem_cons_of_mem d hd', hnum⟩
        · rintro ⟨d', hd', hnum⟩
          rcases List.mem_cons.mp hd' with rfl | hd'2
          · omega
          · exact ⟨d', hd'2, hnum⟩
      · exact ihcomp

namespace SudokuCore

/-- Row-major scan for the first empty cell, as in the nested loops of
solveGrid (sudoku-core.js lines 58-60): the digit loop runs at the first
empty cell encountered and the function returns from inside it. -/
def findFirstEmpty (g : Grid) : Option (Fin 9 × Fin 9) :=
  (List.finRange 9).findSome? fun row =>
    ((List.finRange 9).find? fun col => g row col == 0).map fun col => (row, col)

theorem findFirstEmpty_some_empty (g : Grid) (q : Fin 9 × Fin 9)
    (h : findFirstEmpty g = some q) : g q.1 q.2 = 0 := by
  rw [findFirstEmpty] at h
  obtain ⟨row, _, hrow⟩ := List.exists_of_findSome?_eq_some h
  rw [Option.map_eq_some'] at hrow
  obtain ⟨col, hcol, hq⟩ := hrow
  have := List.find?_some hcol
  rw [← hq]
  simpa using this

theorem findFirstEmpty_none (g : Grid) (h : findFirstEmpty g = none) :
    gridComplete g := by
  intro i j hij
  rw [findFirstEmpty, List.findSome?_eq_none_iff] at h
  have hrow := h i (List.mem_finRange i)
  rw [Option.map_eq_none'] at hrow
  rw [List.find?_eq_none] at hrow
  exact absurd (by simpa using hij) (hrow j (List.mem_finRange j))

/-- solveGrid (sudoku-core.js lines 57-77): plain backtracking over the
first empty cell in row-major order, trying num = 1..9; returns true when
no empty cell remains. -/
def solveAux : Nat → Grid → Bool × Grid
  | 0, g => (false, g)
  | fuel + 1, g =>
    match findFirstEmpty g with
    | none => (true, g)
    | some (r, c) => solveLoop (solveAux fuel) r c (List.range' 1 9) g

def solveGrid (g : Grid) : Bool × Grid := solveAux (emptyCount g + 1) g

theorem solveAux_restore : ∀ (fuel : Nat) (g : Grid),
    (solveAux fuel g).1 = false → (solveAux fuel g).2 = g := by
  intro fuel
  induction fuel with
  | zero =>
    intro g _
    rw [solveAux]
  | succ fuel ih =>
    intro g hfail
    rw [solveAux] at hfail ⊢
    cases hsel : findFirstEmpty g with
    | none => simp [hsel] at hfail
    | some q =>
      obtain ⟨r, c⟩ := q
      rw [hsel] at hfail
      exact solveLoop_restore (solveAux fuel) r c ih _ g
        (findFirstEmpty_some_empty g (r, c) hsel) hfail

theorem solveAux_spec : ∀ (fuel : Nat) (g : Grid),
    gridValid g → gridRange g → emptyCount g < fuel →
    (((solveAux fuel g).1 = true ↔ 1 ≤ numSolutions g) ∧
     ((solveAux fuel g).1 = true → isCompletionOf (solveAux fuel g).2 g)) := by
  intro fuel
  induction fuel with
  | zero =>
    intro g _ _ hfuel
    omega
  | succ fuel ih =>
    intro g hv hr hfuel
    rw [solveAux]
    cases hsel : findFirstEmpty g with
    | none =>
      have hc : gridComplete g := findFirstEmpty_none g hsel
      constructor
      · rw [numSolutions_complete g hc hr hv]
        simp
      · intro _
        exact ⟨fun _ _ _ => rfl, hc, hr, hv⟩
    | some q =>
      obtain ⟨r, c⟩ := q
      have hrc : g r c = 0 := findFirstEmpty_some_empty g (r, c) hsel
      have hloop := solveLoop_spec (solveAux fuel) r c g hrc
        (solveAux_restore fuel)
        (fun d hd1 hd9 hval => by
          refine ih (gset g r c d) (gridValid_gset g r c d hv hval)
            (gridRange_gset g r c d hr (by omega)) ?_
          have := emptyCount_gset_lt g r c d hrc (by omega)
          omega)
        (List.range' 1 9)
        (by intro d hd; rw [List.mem_range'_1] at hd; omega)
      rw [← one_le_numSolutions_iff_range g r c hrc] at hloop
      exact hloop

theorem solveGrid_spec (g : Grid) (hv : gridValid g) (hr : gridRange g) :
    ((solveGrid g).1 = true ↔ 1 ≤ numSolutions g) ∧
    ((solveGrid g).1 = true → isCompletionOf (solveGrid g).2 g) :=
  solveAux_spec (emptyCount g + 1) g hv hr (by omega)

/-- MRV record list of solveGridWithMRV (sudoku-core.js lines 86-100): one
record (row, col, possibleNums) per empty cell, in row-major scan order. -/
def emptyCellsMRV (g : Grid) : List (Fin 9 × Fin 9 × Nat) :=
  (List.finRange 9).flatMap fun row =>
    (List.finRange 9).filterMap fun col =>
      if g row col = 0 then some (row, col, candCount g row col) else none

/-- Selection of solveGridWithMRV (lines 103-111): stable sort of the
records by possibleNums ascending (JavaScript sort with the subtraction
comparator is stable), then the first record. -/
def selectMRV (g : Grid) : Option (Fin 9 × Fin 9 × Nat) :=
  ((emptyCellsMRV g).mergeSort fun a b => Nat.ble a.2.2 b.2.2).head?

theorem mem_emptyCellsMRV (g : Grid) (x : Fin 9 × Fin 9 × Nat) :
    x ∈ emptyCellsMRV g ↔ g x.1 x.2.1 = 0 ∧ x.2.2 = candCount g x.1 x.2.1 := by
  rw [emptyCellsMRV, List.mem_flatMap]
  constructor
  · rintro ⟨row, _, hx⟩
    rw [List.mem_filterMap] at hx
    obtain ⟨col, _, hcol⟩ := hx
    by_cases hempty : g row col = 0
    · rw [if_pos hempty] at hcol
      obtain rfl := Option.some.inj hcol
      exact ⟨hempty, rfl⟩
    · rw [if_neg hempty] at hcol
      exact absurd hcol (Option.noConfusion)
  · rintro ⟨hempty, hcand⟩
    refine ⟨x.1, List.mem_finRange x.1, ?_⟩
    rw [List.mem_filterMap]
    refine ⟨x.2.1, List.mem_finRange x.2.1, ?_⟩
    rw [if_pos hempty, ← hcand]
  
theorem selectMRV_some_empty (g : Grid) (x : Fin 9 × Fin 9 × Nat)
    (h : selectMRV g = some x) : g x.1 x.2.1 = 0 := by
  have hx := head?_mem h
  rw [List.mem_mergeSort, mem_emptyCellsMRV] at hx
  exact hx.1

theorem selectMRV_none (g : Grid) (h : selectMRV g = none) : gridComplete g := by
  intro i j hij
  rw [selectMRV, List.head?_eq_none_iff] at h
  have hmem : (i, j, candCount g i j) ∈ emptyCellsMRV g :=
    (mem_emptyCellsMRV g (i, j, candCount g i j)).mpr ⟨hij, rfl⟩
  rw [← (List.mergeSort_perm (emptyCellsMRV g)
    (fun a b => Nat.ble a.2.2 b.2.2)).mem_iff] at hmem
  rw [h] at hmem
  exact List.not_mem_nil _ hmem

/-- solveGridWithMRV (sudoku-core.js lines 84-125): MRV selection through a
stable sort of the empty-cell records, then the common digit loop over
num = 1..9. -/
def solveMRVAux : Nat → Grid → Bool × Grid
  | 0, g => (false, g)
  | fuel + 1, g =>
    match selectMRV g with
    | none => (true, g)
    | some (r, c, _) => solveLoop (solveMRVAux fuel) r c (List.range' 1 9) g

def solveGridWithMRV (g : Grid) : Bool × Grid := solveMRVAux (emptyCount g + 1) g

theorem solveMRVAux_restore : ∀ (fuel : Nat) (g : Grid),
    (solveMRVAux fuel g).1 = false → (solveMRVAux fuel g).2 = g := by
  intro fuel
  induction fuel with
  | zero =>
    intro g _
    rw [solveMRVAux]
  | succ fuel ih =>
    intro g hfail
    rw [solveMRVAux] at hfail ⊢
    cases hsel : selectMRV g with
    | none => simp [hsel] at hfail
    | some x =>
      obtain ⟨r, c, m⟩ := x
      rw [hsel] at hfail
      exact solveLoop_restore (solveMRVAux fuel) r c ih _ g
        (selectMRV_some_empty g (r, c, m) hsel) hfail

theorem solveMRVAux_spec : ∀ (fuel : Nat) (g : Grid),
    gridValid g → gridRange g → emptyCount g < fuel →
    (((solveMRVAux fuel g).1 = true ↔ 1 ≤ numSolutions g) ∧
     ((solveMRVAux fuel g).1 = true → isCompletionOf (solveMRVAux fuel g).2 g)) := by
  intro fuel
  induction fuel with
  | zero =>
    intro g _ _ hfuel
    omega
  | succ fuel ih =>
    intro g hv hr hfuel
    rw [solveMRVAux]
    cases hsel : selectMRV g with
    | none =>
      have hc : gridComplete g := selectMRV_none g hsel
      constructor
      · rw [numSolutions_complete g hc hr hv]
        simp
      · intro _
        exact ⟨fun _ _ _ => rfl, hc, hr, hv⟩
    | some x =>
      obtain ⟨r, c, m⟩ := x
      have hrc : g r c = 0 := selectMRV_some_empty g (r, c, m) hsel
      have hloop := solveLoop_spec (solveMRVAux fuel) r c g hrc
        (solveMRVAux_restore fuel)
        (fun d hd1 hd9 hval => by
          refine ih (gset g r c d) (gridValid_gset g r c d hv hval)
            (gridRange_gset g r c d hr (by omega)) ?_
          have := emptyCount_gset_lt g r c d hrc (by omega)
          omega)
        (List.range' 1 9)
        (by intro d hd; rw [List.mem_range'_1] at hd; omega)
      rw [← one_le_numSolutions_iff_range g r c hrc] at hloop
      exact hloop

theorem solveGridWithMRV_spec (g : Grid) (hv : gridValid g) (hr : gridRange g) :
    ((solveGridWithMRV g).1 = true ↔ 1 ≤ numSolutions g) ∧
    ((solveGridWithMRV g).1 = true → isCompletionOf (solveGridWithMRV g).2 g) :=
  solveMRVAux_spec (emptyCount g + 1) g hv hr (by omega)

end SudokuCore

namespace SudokuSolver

/-- Empty-cell records of SudokuSolver.solveGrid (sudoku-solver.js lines
72-86) and of the backtrack closure in countSolutionsFast (lines 219-233):
one record (row, col, possibilities) per empty cell in row-major order. -/
def emptyCells (g : Grid) : List (Fin 9 × Fin 9 × List Nat) :=
  (List.finRange 9).flatMap fun row =>
    (List.finRange 9).filterMap fun col =>
      if g row col = 0 then some (row, col, possList g row col) else none

/-- MRV selection (lines 94-95 resp. 242-243): stable sort by possibility
count ascending, then the first record. -/
def selectCell (g : Grid) : Option (Fin 9 × Fin 9 × List Nat) :=
  ((emptyCells g).mergeSort fun a b => Nat.ble a.2.2.length b.2.2.length).head?

theorem mem_emptyCells (g : Grid) (x : Fin 9 × Fin 9 × List Nat) :
    x ∈ emptyCells g ↔ g x.1 x.2.1 = 0 ∧ x.2.2 = possList g x.1 x.2.1 := by
  rw [emptyCells, List.mem_flatMap]
  constructor
  · rintro ⟨row, _, hx⟩
    rw [List.mem_filterMap] at hx
    obtain ⟨col, _, hcol⟩ := hx
    by_cases hempty : g row col = 0
    · rw [if_pos hempty] at hcol
      obtain rfl := Option.some.inj hcol
      exact ⟨hempty, rfl⟩
    · rw [if_neg hempty] at hcol
      exact absurd hcol (Option.noConfusion)
  · rintro ⟨hempty, hposs⟩
    refine ⟨x.1, List.mem_finRange x.1, ?_⟩
    rw [List.mem_filterMap]
    refine ⟨x.2.1, List.mem_finRange x.2.1, ?_⟩
    rw [if_pos hempty, ← hposs]

theorem selectCell_some_cls (g : Grid) (x : Fin 9 × Fin 9 × List Nat)
    (h : selectCell g = some x) :
    g x.1 x.2.1 = 0 ∧ x.2.2 = possList g x.1 x.2.1 := by
  have hx := head?_mem h
  rw [List.mem_mergeSort, mem_emptyCells] at hx
  exact hx

theorem selectCell_none_cls (g : Grid) (h : selectCell g = none) : gridComplete g := by
  intro i j hij
  rw [selectCell, List.head?_eq_none_iff] at h
  have hmem : (i, j, possList g i j) ∈ emptyCells g :=
    (mem_emptyCells g (i, j, possList g i j)).mpr ⟨hij, rfl⟩
  rw [← (List.mergeSort_perm (emptyCells g)
    (fun a b => Nat.ble a.2.2.length b.2.2.length)).mem_iff] at hmem
  rw [h] at hmem
  exact List.not_mem_nil _ hmem

/-- SudokuSolver.solveGrid (sudoku-solver.js lines 70-121): MRV selection
through a stable sort, optional Fisher-Yates shuffle of the possibility
list when randomize is set and the list has more than one element, then the
common digit loop (with its redundant isValidPlacement recheck). -/
def solveAux (reorder : Grid → List Nat → List Nat) :
    Nat → Grid → Bool → Bool × Grid
  | 0, g, _ => (false, g)
  | fuel + 1, g, randomize =>
    match selectCell g with
    | none => (true, g)
    | some (r, c, possibilities) =>
      solveLoop (fun g' => solveAux reorder fuel g' randomize) r c
        (if randomize && decide (1 < possibilities.length)
          then reorder g possibilities else possibilities) g

def solveGrid (reorder : Grid → List Nat → List Nat) (g : Grid)
    (randomize : Bool) : Bool × Grid :=
  solveAux reorder (emptyCount g + 1) g randomize

/-- SudokuSolver.generateFullSudoku (sudoku-solver.js lines 127-135):
creates the all-zero grid and solves it with randomize = true. -/
def generateFullSudoku (reorder : Grid → List Nat → List Nat) : Grid :=
  (solveGrid reorder emptyGrid true).2

theorem solveAux_restore_cls (reorder : Grid → List Nat → List Nat) :
    ∀ (fuel : Nat) (g : Grid) (randomize : Bool),
      (solveAux reorder fuel g randomize).1 = false →
      (solveAux reorder fuel g randomize).2 = g := by
  intro fuel
  induction fuel with
  | zero =>
    intro g randomize _
    rw [solveAux]
  | succ fuel ih =>
    intro g randomize hfail
    rw [solveAux] at hfail ⊢
    cases hsel : selectCell g with
    | none => simp [hsel] at hfail
    | some x =>
      obtain ⟨r, c, possibilities⟩ := x
      rw [hsel] at hfail
      exact solveLoop_restore _ r c (fun g' => ih g' randomize) _ g
        (selectCell_some_cls g (r, c, possibilities) hsel).1 hfail

theorem solveAux_spec_cls (reorder : Grid → List Nat → List Nat)
    (hperm : ∀ g l, List.Perm (reorder g l) l) :
    ∀ (fuel : Nat) (g : Grid) (randomize : Bool),
      gridValid g → gridRange g → emptyCount g < fuel →
      (((solveAux reorder fuel g randomize).1 = true ↔ 1 ≤ numSolutions g) ∧
       ((solveAux reorder fuel g randomize).1 = true →
         isCompletionOf (solveAux reorder fuel g randomize).2 g)) := by
  intro fuel
  induction fuel with
  | zero =>
    intro g randomize _ _ hfuel
    omega
  | succ fuel ih =>
    intro g randomize hv hr hfuel
    rw [solveAux]
    cases hsel : selectCell g with
    | none =>
      have hc : gridComplete g := selectCell_none_cls g hsel
      constructor
      · rw [numSolutions_complete g hc hr hv]
        simp
      · intro _
        exact ⟨fun _ _ _ => rfl, hc, hr, hv⟩
    | some x =>
      obtain ⟨r, c, possibilities⟩ := x
      obtain ⟨hrc0, hposs0⟩ := selectCell_some_cls g (r, c, possibilities) hsel
      have hrc : g r c = 0 := hrc0
      have hposs : possibilities = possList g r c := hposs0
      have hmemcand : ∀ d,
          d ∈ (if randomize && decide (1 < possibilities.length)
            then reorder g possibilities else possibilities) ↔
          d ∈ possList g r c := by
        intro d
        by_cases hb : randomize && decide (1 < possibilities.length)
        · rw [if_pos hb, (hperm g possibilities).mem_iff, hposs]
        · rw [if_neg hb, hposs]
      have hloop := solveLoop_spec
        (fun g' => solveAux reorder fuel g' randomize) r c g hrc
        (fun g' => solveAux_restore_cls reorder fuel g' randomize)
        (fun d hd1 hd9 hval => by
          refine ih (gset g r c d) randomize (gridValid_gset g r c d hv hval)
            (gridRange_gset g r c d hr (by omega)) ?_
          have := emptyCount_gset_lt g r c d hrc (by omega)
          omega)
        (if randomize && decide (1 < possibilities.length)
          then reorder g possibilities else possibilities)
        (by
          intro d hd
          have := ((mem_possList g r c d).mp ((hmemcand d).mp hd)).1
          omega)
      constructor
      · rw [hloop.1, one_le_numSolutions_iff_possList g r c hrc]
        constructor
        · rintro ⟨d, hd, hnum⟩
          exact ⟨d, (hmemcand d).mp hd, hnum⟩
        · rintro ⟨d, hd, hnum⟩
          exact ⟨d, (hmemcand d).mpr hd, hnum⟩
      · exact hloop.2

theorem solveGrid_spec_cls (reorder : Grid → List Nat → List Nat)
    (hperm : ∀ g l, List.Perm (reorder g l) l) (g : Grid) (randomize : Bool)
    (hv : gridValid g) (hr : gridRange g) :
    (((solveGrid reorder g randomize).1 = true ↔ 1 ≤ numSolutions g) ∧
     ((solveGrid reorder g randomize).1 = true →
       isCompletionOf (solveGrid reorder g randomize).2 g)) :=
  solveAux_spec_cls reorder hperm (emptyCount g + 1) g randomize hv hr (by omega)

end SudokuSolver

namespace SudokuSolver

/-- Digit loop of the backtrack closure in SudokuSolver.countSolutionsFast
(sudoku-solver.js lines 251-262): place each candidate (after a redundant
recheck), recurse, restore the cell, stop once maxSolutions is reached. -/
def countLoop (next : Grid → Nat → Nat × Grid) (r c : Fin 9) (maxS : Nat) :
    List Nat → Grid → Nat → Nat × Grid
  | [], g, cnt => (cnt, g)
  | d :: ds, g, cnt =>
    if isValidPlacement g r c d then
      let res := next (gset g r c d) cnt
      let g2 := gset res.2 r c 0
      if maxS ≤ res.1 then (res.1, g2)
      else countLoop next r c maxS ds g2 res.1
    else countLoop next r c maxS ds g cnt

/-- Backtrack closure of SudokuSolver.countSolutionsFast (sudoku-solver.js
lines 213-263): MRV selection through a stable sort, explicit dead-end
return when the chosen cell has an empty possibility list, counting with
early exit at maxSolutions. -/
def countAux (maxS : Nat) : Nat → Grid → Nat → Nat × Grid
  | 0, g, cnt => (cnt, g)
  | fuel + 1, g, cnt =>
    if maxS ≤ cnt then (cnt, g)
    else
      match selectCell g with
      | none => (cnt + 1, g)
      | some (r, c, possibilities) =>
        if possibilities.length = 0 then (cnt, g)
        else countLoop (countAux maxS fuel) r c maxS possibilities g cnt

/-- SudokuSolver.countSolutionsFast (sudoku-solver.js lines 208-267): works
on a deep copy of the grid (the copy is the purity of the embedding) and
returns the number of solutions found, counting at most maxSolutions. -/
def countSolutionsFast (g : Grid) (maxS : Nat) : Nat :=
  (countAux maxS (emptyCount g + 1) g 0).1

theorem countLoop_restore_cls (next : Grid → Nat → Nat × Grid) (r c : Fin 9)
    (maxS : Nat) (hnext : ∀ g cnt, (next g cnt).2 = g) :
    ∀ (ds : List Nat) (g : Grid) (cnt : Nat), g r c = 0 →
      (countLoop next r c maxS ds g cnt).2 = g := by
  intro ds
  induction ds with
  | nil =>
    intro g cnt _
    rw [countLoop]
  | cons d ds ih =>
    intro g cnt hrc
    rw [countLoop]
    by_cases hval : isValidPlacement g r c d
    · rw [if_pos hval]
      simp only [hnext (gset g r c d) cnt, gset_cancel g r c d hrc]
      by_cases h2 : maxS ≤ (next (gset g r c d) cnt).1
      · rw [if_pos h2]
      · rw [if_neg h2]
        exact ih g _ hrc
    · rw [if_neg hval]
      exact ih g cnt hrc

theorem countAux_restore_cls (maxS : Nat) : ∀ (fuel : Nat) (g : Grid) (cnt : Nat),
    (countAux maxS fuel g cnt).2 = g := by
  intro fuel
  induction fuel with
  | zero => intro g cnt; rw [countAux]
  | succ fuel ih =>
    intro g cnt
    rw [countAux]
    by_cases h2 : maxS ≤ cnt
    · rw [if_pos h2]
    · rw [if_neg h2]
      cases hsel : selectCell g with
      | none => rfl
      | some x =>
        obtain ⟨r, c, possibilities⟩ := x
        show (if possibilities.length = 0 then (cnt, g)
          else countLoop (countAux maxS fuel) r c maxS possibilities g cnt).2 = g
        by_cases hlen : possibilities.length = 0
        · rw [if_pos hlen]
        · rw [if_neg hlen]
          exact countLoop_restore_cls (countAux maxS fuel) r c maxS ih _ g cnt
            (selectCell_some_cls g (r, c, possibilities) hsel).1

theorem countLoop_spec_cls (maxS fuel : Nat) (g : Grid) (r c : Fin 9)
    (hv : gridValid g) (hr : gridRange g) (hrc : g r c = 0)
    (hfuel : emptyCount g ≤ fuel)
    (IH : ∀ g' cnt', gridValid g' → gridRange g' → cnt' ≤ maxS →
      emptyCount g' < fuel →
      (countAux maxS fuel g' cnt').1 = min (cnt' + numSolutions g') maxS) :
    ∀ (ds : List Nat) (cnt : Nat), cnt ≤ maxS → (∀ d ∈ ds, 1 ≤ d ∧ d ≤ 9) →
      (countLoop (countAux maxS fuel) r c maxS ds g cnt).1
        = min (cnt + ((ds.map fun d => numSolutions (gset g r c d)).sum)) maxS := by
  intro ds
  induction ds with
  | nil =>
    intro cnt hcnt _
    rw [countLoop]
    simp only [List.map_nil, List.sum_nil]
    omega
  | cons d ds ih =>
    intro cnt hcnt hds
    obtain ⟨hd1, hd9⟩ := hds d (List.mem_cons_self d ds)
    have hdtail : ∀ d' ∈ ds, 1 ≤ d' ∧ d' ≤ 9 :=
      fun d' hd' => hds d' (List.mem_cons_of_mem d hd')
    rw [countLoop]
    simp only [List.map_cons, List.sum_cons]
    by_cases hval : isValidPlacement g r c d
    · rw [if_pos hval]
      have hvalid2 : gridValid (gset g r c d) := gridValid_gset g r c d hv hval
      have hrange2 : gridRange (gset g r c d) := gridRange_gset g r c d hr (by omega)
      have hlt : emptyCount (gset g r c d) < fuel :=
        lt_of_lt_of_le (emptyCount_gset_lt g r c d hrc (by omega)) hfuel
      have hres1 : (countAux maxS fuel (gset g r c d) cnt).1
          = min (cnt + numSolutions (gset g r c d)) maxS :=
        IH _ _ hvalid2 hrange2 hcnt hlt
      have hres2 : (countAux maxS fuel (gset g r c d) cnt).2 = gset g r c d :=
        countAux_restore_cls maxS fuel _ cnt
      simp only [hres1, hres2, gset_cancel g r c d hrc]
      by_cases hbig : maxS ≤ cnt + numSolutions (gset g r c d)
      · rw [if_pos (by omega)]
        omega
      · rw [if_neg (by omega)]
        have heq : min (cnt + numSolutions (gset g r c d)) maxS
            = cnt + numSolutions (gset g r c d) := by omega
        rw [heq, ih _ (by omega) hdtail]
        omega
    · rw [if_neg hval]
      have hzero : numSolutions (gset g r c d) = 0 :=
        numSolutions_gset_invalid g r c d hrc (by omega)
          (by rw [Bool.eq_false_iff]; exact hval)
      rw [ih cnt hcnt hdtail, hzero]
      omega

theorem countAux_spec_cls (maxS : Nat) : ∀ (fuel : Nat) (g : Grid) (cnt : Nat),
    gridValid g → gridRange g → cnt ≤ maxS → emptyCount g < fuel →
    (countAux maxS fuel g cnt).1 = min (cnt + numSolutions g) maxS := by
  intro fuel
  induction fuel with
  | zero =>
    intro g cnt _ _ _ hfuel
    omega
  | succ fuel ih =>
    intro g cnt hv hr hcnt hfuel
    rw [countAux]
    by_cases h2 : maxS ≤ cnt
    · rw [if_pos h2]
      omega
    · rw [if_neg h2]
      cases hsel : selectCell g with
      | none =>
        have hc : gridComplete g := selectCell_none_cls g hsel
        have h1 : numSolutions g = 1 := numSolutions_complete g hc hr hv
        simp only [h1]
        omega
      | some x =>
        obtain ⟨r, c, possibilities⟩ := x
        obtain ⟨hrc0, hposs0⟩ := selectCell_some_cls g (r, c, possibilities) hsel
        have hrc : g r c = 0 := hrc0
        have hposs : possibilities = possList g r c := hposs0
        show (if possibilities.length = 0 then (cnt, g)
          else countLoop (countAux maxS fuel) r c maxS possibilities g cnt).1
            = min (cnt + numSolutions g) maxS
        by_cases hlen : possibilities.length = 0
        · rw [if_pos hlen]
          have hnil : possList g r c = [] := by
            rw [← hposs]
            exact List.length_eq_zero.mp hlen
          have hzero : numSolutions g = 0 :=
            numSolutions_eq_zero_of_no_candidate g r c hrc
              (possList_nil_invalid g r c hnil)
          rw [hzero]
          omega
        · rw [if_neg hlen]
          have hloop := countLoop_spec_cls maxS fuel g r c hv hr hrc (by omega) ih
            possibilities cnt hcnt
            (by
              intro d hd
              rw [hposs] at hd
              exact ((mem_possList g r c d).mp hd).1)
          rw [hloop, hposs, ← numSolutions_partition_possList g r c hrc]

theorem countSolutionsFast_spec_cls (g : Grid) (maxS : Nat) (hv : gridValid g)
    (hr : gridRange g) : countSolutionsFast g maxS = min (numSolutions g) maxS := by
  rw [countSolutionsFast,
    countAux_spec_cls maxS (emptyCount g + 1) g 0 hv hr (by omega) (by omega)]
  omega

end SudokuSolver

namespace SudokuGen

/-- Cell addresses in row-major order, as visited by the nested scan loops
of the functional module (part_000). -/
def allCells : List (Fin 9 × Fin 9) :=
  (List.finRange 9).flatMap fun row => (List.finRange 9).map fun col => (row, col)

theorem mem_allCells (p : Fin 9 × Fin 9) : p ∈ allCells := by
  rw [allCells, List.mem_flatMap]
  refine ⟨p.1, List.mem_finRange p.1, ?_⟩
  rw [List.mem_map]
  exact ⟨p.2, List.mem_finRange p.2, rfl⟩

/-- One step of the MRV scan of solveGrid (part_000 lines 96-116): for an
empty cell whose possibility list is strictly shorter than the current
minimum, record it as the best cell. -/
def scanStep (g : Grid) (st : Option (Fin 9 × Fin 9 × List Nat) × Nat)
    (p : Fin 9 × Fin 9) : Option (Fin 9 × Fin 9 × List Nat) × Nat :=
  if g p.1 p.2 = 0 then
    if (possList g p.1 p.2).length < st.2 then
      (some (p.1, p.2, possList g p.1 p.2), (possList g p.1 p.2).length)
    else st
  else st

/-- Best cell chosen by solveGrid (part_000 lines 88-121): minimum
possibility count, ties broken by scan order through the strict
comparison. -/
def selectCell (g : Grid) : Option (Fin 9 × Fin 9 × List Nat) :=
  (allCells.foldl (scanStep g) (none, 10)).1

theorem foldl_scanStep_some (g : Grid) :
    ∀ (l : List (Fin 9 × Fin 9)) (st : Option (Fin 9 × Fin 9 × List Nat) × Nat),
      (∀ x, st.1 = some x → g x.1 x.2.1 = 0 ∧ x.2.2 = possList g x.1 x.2.1) →
      ∀ x, (l.foldl (scanStep g) st).1 = some x →
        g x.1 x.2.1 = 0 ∧ x.2.2 = possList g x.1 x.2.1 := by
  intro l
  induction l with
  | nil => intro st h x hx; exact h x hx
  | cons p ps ih =>
    intro st h x hx
    rw [List.foldl_cons] at hx
    refine ih (scanStep g st p) ?_ x hx
    intro y hy
    rw [scanStep] at hy
    split_ifs at hy with hempty hlt
    · simp only [Option.some.injEq] at hy
      rw [← hy]
      exact ⟨hempty, rfl⟩
    · exact h y hy
    · exact h y hy

theorem foldl_scanStep_isSome (g : Grid) :
    ∀ (l : List (Fin 9 × Fin 9)) (st : Option (Fin 9 × Fin 9 × List Nat) × Nat),
      st.1.isSome → (l.foldl (scanStep g) st).1.isSome := by
  intro l
  induction l with
  | nil => intro st h; exact h
  | cons p ps ih =>
    intro st h
    rw [List.foldl_cons]
    refine ih (scanStep g st p) ?_
    rw [scanStep]
    split_ifs with hempty hlt
    · simp
    · exact h
    · exact h

theorem possList_length_le (g : Grid) (i j : Fin 9) :
    (possList g i j).length ≤ 9 := by
  rw [← candCount_eq_length]
  exact candCount_le g i j

theorem foldl_scanStep_hits (g : Grid) :
    ∀ (l : List (Fin 9 × Fin 9)) (st : Option (Fin 9 × Fin 9 × List Nat) × Nat),
      (st.1 = none → st.2 = 10) →
      (∃ p ∈ l, g p.1 p.2 = 0) → (l.foldl (scanStep g) st).1.isSome := by
  intro l
  induction l with
  | nil =>
    rintro st _ ⟨p, hp, _⟩
    exact absurd hp (List.not_mem_nil p)
  | cons p ps ih =>
    rintro st hinv ⟨q, hq, hempty⟩
    rw [List.foldl_cons]
    cases hst : st.1 with
    | some x =>
      refine foldl_scanStep_isSome g ps (scanStep g st p) ?_
      rw [scanStep]
      split_ifs with h1 h2
      · simp
      · rw [hst]; rfl
      · rw [hst]; rfl
    | none =>
      have h10 : st.2 = 10 := hinv hst
      rcases List.mem_cons.mp hq with rfl | hqtail
      · refine foldl_scanStep_isSome g ps (scanStep g st q) ?_
        rw [scanStep, if_pos hempty,
          if_pos (by rw [h10]; have := possList_length_le g q.1 q.2; omega)]
        simp
      · by_cases hempty2 : g p.1 p.2 = 0
        · refine foldl_scanStep_isSome g ps (scanStep g st p) ?_
          rw [scanStep, if_pos hempty2,
            if_pos (by rw [h10]; have := possList_length_le g p.1 p.2; omega)]
          simp
        · rw [scanStep, if_neg hempty2]
          exact ih st hinv ⟨q, hqtail, hempty⟩

theorem selectCell_some_p0 (g : Grid) (x : Fin 9 × Fin 9 × List Nat)
    (h : selectCell g = some x) :
    g x.1 x.2.1 = 0 ∧ x.2.2 = possList g x.1 x.2.1 := by
  refine foldl_scanStep_some g allCells (none, 10) ?_ x h
  intro y hy
  simp at hy

theorem selectCell_none_p0 (g : Grid) (h : selectCell g = none) : gridComplete g := by
  intro i j hij
  have hsome : (allCells.foldl (scanStep g) (none, 10)).1.isSome :=
    foldl_scanStep_hits g allCells (none, 10) (fun _ => rfl)
      ⟨(i, j), mem_allCells (i, j), hij⟩
  rw [selectCell] at h
  rw [h] at hsome
  simp at hsome

/-- solveGrid of the functional module (part_000 lines 88-146): MRV scan
with strict comparison, Fisher-Yates shuffle of the stored possibility list
(always applied), then placement without recheck. -/
def solveAux (reorder : Grid → List Nat → List Nat) : Nat → Grid → Bool × Grid
  | 0, g => (false, g)
  | fuel + 1, g =>
    match selectCell g with
    | none => (true, g)
    | some (r, c, possibilities) =>
      solveLoopNR (solveAux reorder fuel) r c (reorder g possibilities) g

def solveGrid (reorder : Grid → List Nat → List Nat) (g : Grid) : Bool × Grid :=
  solveAux reorder (emptyCount g + 1) g

theorem solveAux_restore_p0 (reorder : Grid → List Nat → List Nat) :
    ∀ (fuel : Nat) (g : Grid),
      (solveAux reorder fuel g).1 = false → (solveAux reorder fuel g).2 = g := by
  intro fuel
  induction fuel with
  | zero =>
    intro g _
    rw [solveAux]
  | succ fuel ih =>
    intro g hfail
    rw [solveAux] at hfail ⊢
    cases hsel : selectCell g with
    | none => simp [hsel] at hfail
    | some x =>
      obtain ⟨r, c, possibilities⟩ := x
      rw [hsel] at hfail
      exact solveLoopNR_restore _ r c ih _ g
        (selectCell_some_p0 g (r, c, possibilities) hsel).1 hfail

theorem solveAux_spec_p0 (reorder : Grid → List Nat → List Nat)
    (hperm : ∀ g l, List.Perm (reorder g l) l) :
    ∀ (fuel : Nat) (g : Grid),
      gridValid g → gridRange g → emptyCount g < fuel →
      (((solveAux reorder fuel g).1 = true ↔ 1 ≤ numSolutions g) ∧
       ((solveAux reorder fuel g).1 = true →
         isCompletionOf (solveAux reorder fuel g).2 g)) := by
  intro fuel
  induction fuel with
  | zero =>
    intro g _ _ hfuel
    omega
  | succ fuel ih =>
    intro g hv hr hfuel
    rw [solveAux]
    cases hsel : selectCell g with
    | none =>
      have hc : gridComplete g := selectCell_none_p0 g hsel
      constructor
      · rw [numSolutions_complete g hc hr hv]
        simp
      · intro _
        exact ⟨fun _ _ _ => rfl, hc, hr, hv⟩
    | some x =>
      obtain ⟨r, c, possibilities⟩ := x
      obtain ⟨hrc0, hposs0⟩ := selectCell_some_p0 g (r, c, possibilities) hsel
      have hrc : g r c = 0 := hrc0
      have hposs : possibilities = possList g r c := hposs0
      have hloop := solveLoopNR_spec (solveAux reorder fuel) r c g hrc
        (solveAux_restore_p0 reorder fuel)
        (fun d hd1 hd9 hval => by
          refine ih (gset g r c d) (gridValid_gset g r c d hv hval)
            (gridRange_gset g r c d hr (by omega)) ?_
          have := emptyCount_gset_lt g r c d hrc (by omega)
          omega)
        (reorder g possibilities)
        (by
          intro d hd
          rw [(hperm g possibilities).mem_iff, hposs] at hd
          exact hd)
      constructor
      · rw [hloop.1, one_le_numSolutions_iff_possList g r c hrc]
        constructor
        · rintro ⟨d, hd, hnum⟩
          rw [(hperm g possibilities).mem_iff, hposs] at hd
          exact ⟨d, hd, hnum⟩
        · rintro ⟨d, hd, hnum⟩
          refine ⟨d, ?_, hnum⟩
          rw [(hperm g possibilities).mem_iff, hposs]
          exact hd
      · exact hloop.2

theorem solveGrid_spec_p0 (reorder : Grid → List Nat → List Nat)
    (hperm : ∀ g l, List.Perm (reorder g l) l) (g : Grid)
    (hv : gridValid g) (hr : gridRange g) :
    (((solveGrid reorder g).1 = true ↔ 1 ≤ numSolutions g) ∧
     ((solveGrid reorder g).1 = true →
       isCompletionOf (solveGrid reorder g).2 g)) :=
  solveAux_spec_p0 reorder hperm (emptyCount g + 1) g hv hr (by omega)

end SudokuGen

namespace SudokuGen

/-- MRV scan of countSolutionsFast (part_000 lines 160-192): like the
solver scan, but a cell with no possibilities makes the whole call return
true immediately (dead-end pruning); the result none encodes that early
return. -/
def countScanGo (g : Grid) :
    List (Fin 9 × Fin 9) → Option (Fin 9 × Fin 9 × List Nat) × Nat →
    Option (Option (Fin 9 × Fin 9 × List Nat) × Nat)
  | [], st => some st
  | p :: ps, st =>
    if g p.1 p.2 = 0 then
      if (possList g p.1 p.2).length = 0 then none
      else if (possList g p.1 p.2).length < st.2 then
        countScanGo g ps (some (p.1, p.2, possList g p.1 p.2), (possList g p.1 p.2).length)
      else countScanGo g ps st
    else countScanGo g ps st

def countScan (g : Grid) : Option (Option (Fin 9 × Fin 9 × List Nat) × Nat) :=
  countScanGo g allCells (none, 10)

theorem countScanGo_none (g : Grid) :
    ∀ (l : List (Fin 9 × Fin 9)) (st : Option (Fin 9 × Fin 9 × List Nat) × Nat),
      countScanGo g l st = none →
      ∃ p : Fin 9 × Fin 9, g p.1 p.2 = 0 ∧ possList g p.1 p.2 = [] := by
  intro l
  induction l with
  | nil =>
    intro st h
    rw [countScanGo] at h
    exact absurd h (Option.noConfusion)
  | cons p ps ih =>
    intro st h
    rw [countScanGo] at h
    split_ifs at h with hempty hlen hlt
    · exact ⟨p, hempty, List.length_eq_zero.mp hlen⟩
    · exact ih _ h
    · exact ih _ h
    · exact ih _ h

theorem countScanGo_rec (g : Grid) :
    ∀ (l : List (Fin 9 × Fin 9)) (st : Option (Fin 9 × Fin 9 × List Nat) × Nat),
      (∀ x, st.1 = some x → g x.1 x.2.1 = 0 ∧ x.2.2 = possList g x.1 x.2.1) →
      ∀ st2, countScanGo g l st = some st2 →
        ∀ x, st2.1 = some x → g x.1 x.2.1 = 0 ∧ x.2.2 = possList g x.1 x.2.1 := by
  intro l
  induction l with
  | nil =>
    intro st h st2 hst2 x hx
    rw [countScanGo] at hst2
    obtain rfl := Option.some.inj hst2
    exact h x hx
  | cons p ps ih =>
    intro st h st2 hst2 x hx
    rw [countScanGo] at hst2
    split_ifs at hst2 with hempty hlen hlt
    · refine ih _ ?_ st2 hst2 x hx
      intro y hy
      simp only [Option.some.injEq] at hy
      rw [← hy]
      exact ⟨hempty, rfl⟩
    · exact ih _ h st2 hst2 x hx
    · exact ih _ h st2 hst2 x hx

theorem countScanGo_isSome (g : Grid) :
    ∀ (l : List (Fin 9 × Fin 9)) (st : Option (Fin 9 × Fin 9 × List Nat) × Nat),
      st.1.isSome →
      ∀ st2, countScanGo g l st = some st2 → st2.1.isSome := by
  intro l
  induction l with
  | nil =>
    intro st h st2 hst2
    rw [countScanGo] at hst2
    obtain rfl := Option.some.inj hst2
    exact h
  | cons p ps ih =>
    intro st h st2 hst2
    rw [countScanGo] at hst2
    split_ifs at hst2 with hempty hlen hlt
    · exact ih _ (by simp) st2 hst2
    · exact ih _ h st2 hst2
    · exact ih _ h st2 hst2

theorem countScanGo_hits (g : Grid) :
    ∀ (l : List (Fin 9 × Fin 9)) (st : Option (Fin 9 × Fin 9 × List Nat) × Nat),
      (st.1 = none → st.2 = 10) →
      (∃ p ∈ l, g p.1 p.2 = 0) →
      ∀ st2, countScanGo g l st = some st2 → st2.1.isSome := by
  intro l
  induction l with
  | nil =>
    rintro st _ ⟨p, hp, _⟩
    exact absurd hp (List.not_mem_nil p)
  | cons p ps ih =>
    rintro st hinv ⟨q, hq, hempty⟩ st2 hst2
    rw [countScanGo] at hst2
    cases hst : st.1 with
    | some x =>
      split_ifs at hst2 with h1 h2 h3
      · exact countScanGo_isSome g ps _ (by simp) st2 hst2
      · exact countScanGo_isSome g ps st (by rw [hst]; rfl) st2 hst2
      · exact countScanGo_isSome g ps st (by rw [hst]; rfl) st2 hst2
    | none =>
      have h10 : st.2 = 10 := hinv hst
      rcases List.mem_cons.mp hq with rfl | hqtail
      · rw [if_pos hempty] at hst2
        split_ifs at hst2 with hlen hlt
        · exact countScanGo_isSome g ps _ (by simp) st2 hst2
        · rw [h10] at hlt
          have := possList_length_le g q.1 q.2
          omega
      · by_cases hempty2 : g p.1 p.2 = 0
        · rw [if_pos hempty2] at hst2
          split_ifs at hst2 with hlen hlt
          · exact countScanGo_isSome g ps _ (by simp) st2 hst2
          · rw [h10] at hlt
            have := possList_length_le g p.1 p.2
            omega
        · rw [if_neg hempty2] at hst2
          exact ih st hinv ⟨q, hqtail, hempty⟩ st2 hst2

theorem countScan_none (g : Grid) (h : countScan g = none) :
    numSolutions g = 0 := by
  obtain ⟨p, hempty, hnil⟩ := countScanGo_none g allCells (none, 10) h
  exact numSolutions_eq_zero_of_no_candidate g p.1 p.2 hempty
    (possList_nil_invalid g p.1 p.2 hnil)

theorem countScan_some_none (g : Grid) (st2 : Option (Fin 9 × Fin 9 × List Nat) × Nat)
    (h : countScan g = some st2) (h2 : st2.1 = none) : gridComplete g := by
  intro i j hij
  have := countScanGo_hits g allCells (none, 10) (fun _ => rfl)
    ⟨(i, j), mem_allCells (i, j), hij⟩ st2 h
  rw [h2] at this
  simp at this

theorem countScan_some_some (g : Grid) (st2 : Option (Fin 9 × Fin 9 × List Nat) × Nat)
    (h : countScan g = some st2) (x : Fin 9 × Fin 9 × List Nat) (hx : st2.1 = some x) :
    g x.1 x.2.1 = 0 ∧ x.2.2 = possList g x.1 x.2.1 := by
  refine countScanGo_rec g allCells (none, 10) ?_ st2 h x hx
  intro y hy
  simp at hy

/-- Digit loop of countSolutionsFast (part_000 lines 207-225): place each
candidate from the shuffled possibility list (no recheck), recurse; a false
return from the recursion aborts the whole search (2 solutions reached);
otherwise restore and re-check the counter before the next candidate. -/
def countLoop (next : Grid → Nat → Bool × Nat × Grid) (r c : Fin 9) :
    List Nat → Grid → Nat → Bool × Nat × Grid
  | [], g, cnt => (true, cnt, g)
  | d :: ds, g, cnt =>
    let res := next (gset g r c d) cnt
    if res.1 = false then (false, res.2.1, gset res.2.2 r c 0)
    else
      if 2 ≤ res.2.1 then (false, res.2.1, gset res.2.2 r c 0)
      else countLoop next r c ds (gset res.2.2 r c 0) res.2.1

/-- countSolutionsFast (part_000 lines 154-228): returns the continue/stop
Boolean of the source together with the counter and the final grid state.
The fuel-exhausted fallback mirrors the protocol invariant (the Boolean is
count < 2) and is unreachable with the fuel passed by the wrapper. -/
def countAux (reorder : Grid → List Nat → List Nat) :
    Nat → Grid → Nat → Bool × Nat × Grid
  | 0, g, cnt => (decide (cnt < 2), cnt, g)
  | fuel + 1, g, cnt =>
    if 2 ≤ cnt then (false, cnt, g)
    else
      match countScan g with
      | none => (true, cnt, g)
      | some (none, _) => (decide (cnt + 1 < 2), cnt + 1, g)
      | some (some (r, c, possibilities), _) =>
        countLoop (countAux reorder fuel) r c (reorder g possibilities) g cnt

/-- countSolutionsFast as its callers use it (removeNumbers lines 300-305):
fresh counter object with count 0, count read afterwards. -/
def countSolutionsFast (reorder : Grid → List Nat → List Nat) (g : Grid) : Nat :=
  (countAux reorder (emptyCount g + 1) g 0).2.1

theorem countLoop_restore_p0 (next : Grid → Nat → Bool × Nat × Grid) (r c : Fin 9)
    (hnext : ∀ g cnt, (next g cnt).2.2 = g) :
    ∀ (ds : List Nat) (g : Grid) (cnt : Nat), g r c = 0 →
      (countLoop next r c ds g cnt).2.2 = g := by
  intro ds
  induction ds with
  | nil =>
    intro g cnt _
    rw [countLoop]
  | cons d ds ih =>
    intro g cnt hrc
    rw [countLoop]
    simp only [hnext (gset g r c d) cnt, gset_cancel g r c d hrc]
    by_cases h1 : (next (gset g r c d) cnt).1 = false
    · rw [if_pos h1]
    · rw [if_neg h1]
      by_cases h2 : 2 ≤ (next (gset g r c d) cnt).2.1
      · rw [if_pos h2]
      · rw [if_neg h2]
        exact ih g _ hrc

theorem countAux_restore_p0 (reorder : Grid → List Nat → List Nat) :
    ∀ (fuel : Nat) (g : Grid) (cnt : Nat),
      (countAux reorder fuel g cnt).2.2 = g := by
  intro fuel
  induction fuel with
  | zero => intro g cnt; rw [countAux]
  | succ fuel ih =>
    intro g cnt
    rw [countAux]
    by_cases h2 : 2 ≤ cnt
    · rw [if_pos h2]
    · rw [if_neg h2]
      cases hscan : countScan g with
      | none => rfl
      | some st2 =>
        obtain ⟨orec, m⟩ := st2
        cases orec with
        | none => rfl
        | some x =>
          obtain ⟨r, c, possibilities⟩ := x
          exact countLoop_restore_p0 (countAux reorder fuel) r c
            (fun g' cnt' => ih g' cnt') _ g cnt
            (countScan_some_some g _ hscan (r, c, possibilities) rfl).1

theorem countLoop_spec_p0 (reorder : Grid → List Nat → List Nat) (fuel : Nat)
    (g : Grid) (r c : Fin 9)
    (hv : gridValid g) (hr : gridRange g) (hrc : g r c = 0)
    (hfuel : emptyCount g ≤ fuel)
    (IH : ∀ g' cnt', gridValid g' → gridRange g' → cnt' ≤ 2 →
      emptyCount g' < fuel →
      ((countAux reorder fuel g' cnt').2.1 = min (cnt' + numSolutions g') 2 ∧
       (countAux reorder fuel g' cnt').1
        = decide ((countAux reorder fuel g' cnt').2.1 < 2))) :
    ∀ (ds : List Nat) (cnt : Nat), cnt < 2 → (∀ d ∈ ds, d ∈ possList g r c) →
      ((countLoop (countAux reorder fuel) r c ds g cnt).2.1
          = min (cnt + ((ds.map fun d => numSolutions (gset g r c d)).sum)) 2 ∧
       (countLoop (countAux reorder fuel) r c ds g cnt).1
          = decide ((countLoop (countAux reorder fuel) r c ds g cnt).2.1 < 2)) := by
  intro ds
  induction ds with
  | nil =>
    intro cnt hcnt _
    rw [countLoop]
    simp only [List.map_nil, List.sum_nil]
    constructor
    · show cnt = min (cnt + 0) 2
      omega
    · show true = decide (cnt < 2)
      rw [eq_comm, decide_eq_true_eq]
      omega
  | cons d ds ih =>
    intro cnt hcnt hds
    obtain ⟨⟨hd1, hd9⟩, hval⟩ :=
      (mem_possList g r c d).mp (hds d (List.mem_cons_self d ds))
    have hdtail : ∀ d' ∈ ds, d' ∈ possList g r c :=
      fun d' hd' => hds d' (List.mem_cons_of_mem d hd')
    rw [countLoop]
    simp only [List.map_cons, List.sum_cons]
    have hvalid2 : gridValid (gset g r c d) := gridValid_gset g r c d hv hval
    have hrange2 : gridRange (gset g r c d) := gridRange_gset g r c d hr (by omega)
    have hlt : emptyCount (gset g r c d) < fuel :=
      lt_of_lt_of_le (emptyCount_gset_lt g r c d hrc (by omega)) hfuel
    obtain ⟨hres1, hresb⟩ := IH (gset g r c d) cnt hvalid2 hrange2 (by omega) hlt
    have hres2 : (countAux reorder fuel (gset g r c d) cnt).2.2 = gset g r c d :=
      countAux_restore_p0 reorder fuel _ cnt
    simp only [hres1, hresb, hres2, gset_cancel g r c d hrc]
    by_cases hbig : 2 ≤ cnt + numSolutions (gset g r c d)
    · rw [if_pos (by rw [decide_eq_false_iff_not]; omega)]
      constructor
      · show min (cnt + numSolutions (gset g r c d)) 2
            = min (cnt + (numSolutions (gset g r c d)
              + ((ds.map fun d => numSolutions (gset g r c d)).sum))) 2
        omega
      · show false = decide (min (cnt + numSolutions (gset g r c d)) 2 < 2)
        rw [eq_comm, decide_eq_false_iff_not]
        omega
    · rw [if_neg (by simp only [decide_eq_false_iff_not, not_not]; omega)]
      rw [if_neg (by omega)]
      have heq : min (cnt + numSolutions (gset g r c d)) 2
          = cnt + numSolutions (gset g r c d) := by omega
      rw [heq]
      obtain ⟨ih1, ih2⟩ := ih (cnt + numSolutions (gset g r c d)) (by omega) hdtail
      rw [ih1, ih2, ih1]
      constructor
      · omega
      · rfl

theorem countAux_spec_p0 (reorder : Grid → List Nat → List Nat)
    (hperm : ∀ g l, List.Perm (reorder g l) l) :
    ∀ (fuel : Nat) (g : Grid) (cnt : Nat),
      gridValid g → gridRange g → cnt ≤ 2 → emptyCount g < fuel →
      ((countAux reorder fuel g cnt).2.1 = min (cnt + numSolutions g) 2 ∧
       (countAux reorder fuel g cnt).1
        = decide ((countAux reorder fuel g cnt).2.1 < 2)) := by
  intro fuel
  induction fuel with
  | zero =>
    intro g cnt _ _ _ hfuel
    omega
  | succ fuel ih =>
    intro g cnt hv hr hcnt hfuel
    rw [countAux]
    by_cases h2 : 2 ≤ cnt
    · rw [if_pos h2]
      constructor
      · show cnt = min (cnt + numSolutions g) 2
        omega
      · show false = decide (cnt < 2)
        rw [eq_comm, decide_eq_false_iff_not]
        omega
    · rw [if_neg h2]
      cases hscan : countScan g with
      | none =>
        have hzero : numSolutions g = 0 := countScan_none g hscan
        rw [hzero]
        constructor
        · show cnt = min (cnt + 0) 2
          omega
        · show true = decide (cnt < 2)
          rw [eq_comm, decide_eq_true_eq]
          omega
      | some st2 =>
        obtain ⟨orec, m⟩ := st2
        cases orec with
        | none =>
          have hc : gridComplete g := countScan_some_none g (none, m) hscan rfl
          have h1 : numSolutions g = 1 := numSolutions_complete g hc hr hv
          rw [h1]
          constructor
          · show cnt + 1 = min (cnt + 1) 2
            omega
          · rfl
        | some x =>
          obtain ⟨r, c, possibilities⟩ := x
          obtain ⟨hrc0, hposs0⟩ :=
            countScan_some_some g _ hscan (r, c, possibilities) rfl
          have hrc : g r c = 0 := hrc0
          have hposs : possibilities = possList g r c := hposs0
          have hsum : (((reorder g possibilities).map
              fun d => numSolutions (gset g r c d)).sum)
              = numSolutions g := by
            have hp : List.Perm ((reorder g possibilities).map
                fun d => numSolutions (gset g r c d))
                (possibilities.map fun d => numSolutions (gset g r c d)) :=
              (hperm g possibilities).map _
            rw [hp.sum_eq, hposs, ← numSolutions_partition_possList g r c hrc]
          have hloop := countLoop_spec_p0 reorder fuel g r c hv hr hrc (by omega) ih
            (reorder g possibilities) cnt (by omega)
            (by
              intro d hd
              rw [(hperm g possibilities).mem_iff, hposs] at hd
              exact hd)
          rw [hsum] at hloop
          exact hloop

theorem countSolutionsFast_spec_p0 (reorder : Grid → List Nat → List Nat)
    (hperm : ∀ g l, List.Perm (reorder g l) l) (g : Grid)
    (hv : gridValid g) (hr : gridRange g) :
    countSolutionsFast reorder g = min (numSolutions g) 2 := by
  rw [countSolutionsFast,
    (countAux_spec_p0 reorder hperm (emptyCount g + 1) g 0 hv hr (by omega) (by omega)).1]
  omega

end SudokuGen

theorem gridExtends_refl (g : Grid) : gridExtends g g := fun _ _ _ => rfl

theorem gridExtends_gset_zero {p full : Grid} (hpf : gridExtends p full)
    (r c : Fin 9) : gridExtends (gset p r c 0) full := by
  intro i j hne
  by_cases hij : i = r ∧ j = c
  · obtain ⟨rfl, rfl⟩ := hij
    rw [gset_self] at hne
    exact absurd rfl hne
  · rw [gset_ne _ _ _ _ _ _ hij] at hne ⊢
    exact hpf i j hne

/-- Re-inserting the original clue of the unique solution can only shrink
the completion set, which still contains that solution. -/
theorem numSolutions_squeeze {p q full : Grid} (hpq : gridExtends p q)
    (hqf : gridExtends q full) (hc : gridComplete full) (hr : gridRange full)
    (hv : gridValid full) (hone : numSolutions p = 1) : numSolutions q = 1 := by
  have hsub : completionsFinset q ⊆ completionsFinset p := completions_mono hpq
  have hfull : encodeGrid full ∈ completionsFinset q :=
    (mem_completionsFinset q _).mpr
      (by rw [toDigits_encodeGrid full hc hr]; exact ⟨hqf, hc, hr, hv⟩)
  have h1 : 0 < (completionsFinset q).card := Finset.card_pos.mpr ⟨_, hfull⟩
  have h2 : (completionsFinset q).card ≤ (completionsFinset p).card :=
    Finset.card_le_card hsub
  rw [numSolutions_def] at hone ⊢
  omega

/-- A puzzle below its unique-solution certificate: the one completion is
the full grid it was carved from. -/
theorem completions_eq_full {p full : Grid} (hext : gridExtends p full)
    (hc : gridComplete full) (hr : gridRange full) (hv : gridValid full)
    (hone : numSolutions p = 1) (h : Grid) :
    isCompletionOf h p ↔ h = full := by
  constructor
  · intro hcomp
    have hone2 := hone
    rw [numSolutions_def, Finset.card_eq_one] at hone2
    obtain ⟨a, ha⟩ := hone2
    have h1 : encodeGrid h ∈ completionsFinset p :=
      (mem_completionsFinset p _).mpr
        (by rwa [toDigits_encodeGrid h hcomp.2.1 hcomp.2.2.1])
    have h2 : encodeGrid full ∈ completionsFinset p :=
      (mem_completionsFinset p _).mpr
        (by rw [toDigits_encodeGrid full hc hr]; exact ⟨hext, hc, hr, hv⟩)
    rw [ha, Finset.mem_singleton] at h1 h2
    have heq : toDigits (encodeGrid h) = toDigits (encodeGrid full) := by
      rw [h1, h2]
    rwa [toDigits_encodeGrid h hcomp.2.1 hcomp.2.2.1,
      toDigits_encodeGrid full hc hr] at heq
  · rintro rfl
    exact ⟨hext, hc, hr, hv⟩

namespace SudokuSolver

/-- Difficulty configuration of the SudokuSolver constructor (sudoku-solver.js
lines 8-14). -/
structure DiffCfg where
  removeCount : Nat
  minCount : Nat
deriving DecidableEq

/-- difficultyLevels table: easy, medium, hard, expert, master; any other
key reads as undefined (none). -/
def difficultyLevels : String → Option DiffCfg := fun s =>
  if s = "easy" then some ⟨30, 45⟩
  else if s = "medium" then some ⟨40, 35⟩
  else if s = "hard" then some ⟨50, 25⟩
  else if s = "expert" then some ⟨55, 20⟩
  else if s = "master" then some ⟨60, 17⟩
  else none

/-- Config resolution of removeNumbers (sudoku-solver.js line 148):
this.difficultyLevels[difficulty] || this.difficultyLevels.medium — an
unknown tag silently falls back to the medium configuration. -/
def configResolve (difficulty : String) : DiffCfg :=
  (difficultyLevels difficulty).getD ⟨40, 35⟩

/-- Removal loop of removeNumbers (sudoku-solver.js lines 169-186): walk the
shuffled positions; back up the cell, zero it, keep the removal only when
countSolutionsFast still reports exactly one solution, otherwise write the
backup back; removedPositions records the committed removals (the source
pushes before the test and pops on failure, with the same net effect). -/
def removeLoop : List (Fin 9 × Fin 9) → Grid → Nat → List (Fin 9 × Fin 9 × Nat) →
    Grid × List (Fin 9 × Fin 9 × Nat)
  | [], puzzleGrid, _, removedPositions => (puzzleGrid, removedPositions)
  | pos :: rest, puzzleGrid, cellsToRemove, removedPositions =>
    if cellsToRemove = 0 then (puzzleGrid, removedPositions)
    else
      if countSolutionsFast (gset puzzleGrid pos.1 pos.2 0) 2 ≠ 1 then
        removeLoop rest
          (gset (gset puzzleGrid pos.1 pos.2 0) pos.1 pos.2 (puzzleGrid pos.1 pos.2))
          cellsToRemove removedPositions
      else
        removeLoop rest (gset puzzleGrid pos.1 pos.2 0) (cellsToRemove - 1)
          ((pos.1, pos.2, puzzleGrid pos.1 pos.2) :: removedPositions)

/-- remainingNumbers (sudoku-solver.js line 189):
puzzleGrid.flat().filter(cell => cell !== 0).length. -/
def clueCount (g : Grid) : Nat :=
  (Finset.univ.filter fun p : Fin 9 × Fin 9 => g p.1 p.2 ≠ 0).card

/-- Restore phase of removeNumbers (sudoku-solver.js lines 190-197): pop up
to countToRestore committed removals and write their values back. -/
def restoreClues : Grid → List (Fin 9 × Fin 9 × Nat) → Nat → Grid
  | puzzleGrid, _, 0 => puzzleGrid
  | puzzleGrid, [], _ + 1 => puzzleGrid
  | puzzleGrid, (r, c, v) :: rest, k + 1 => restoreClues (gset puzzleGrid r c v) rest k

/-- SudokuSolver.removeNumbers (sudoku-solver.js lines 143-200).  The deep
copy of fullGrid is the purity of the embedding; the shuffled position
array is the positions parameter. -/
def removeNumbers (fullGrid : Grid) (difficulty : String)
    (positions : List (Fin 9 × Fin 9)) : Grid :=
  let config := configResolve difficulty
  let res := removeLoop positions fullGrid config.removeCount []
  if clueCount res.1 < config.minCount ∧ res.2 ≠ [] then
    restoreClues res.1 res.2 (config.minCount - clueCount res.1)
  else res.1

theorem removeLoop_inv_cls (fullGrid : Grid) (hc : gridComplete fullGrid)
    (hr : gridRange fullGrid) (hv : gridValid fullGrid) :
    ∀ (positions : List (Fin 9 × Fin 9)) (p : Grid) (k : Nat)
      (removed : List (Fin 9 × Fin 9 × Nat)),
      positions.Nodup →
      (∀ q ∈ positions, p q.1 q.2 = fullGrid q.1 q.2) →
      gridExtends p fullGrid → numSolutions p = 1 →
      (∀ x ∈ removed, x.2.2 = fullGrid x.1 x.2.1) →
      (gridExtends (removeLoop positions p k removed).1 fullGrid ∧
       numSolutions (removeLoop positions p k removed).1 = 1 ∧
       ∀ x ∈ (removeLoop positions p k removed).2, x.2.2 = fullGrid x.1 x.2.1) := by
  intro positions
  induction positions with
  | nil =>
    intro p k removed _ _ hext hone hrem
    rw [removeLoop]
    exact ⟨hext, hone, hrem⟩
  | cons pos rest ih =>
    intro p k removed hnodup hagree hext hone hrem
    have hnodup2 : rest.Nodup := (List.nodup_cons.mp hnodup).2
    have hposrest : pos ∉ rest := (List.nodup_cons.mp hnodup).1
    rw [removeLoop]
    by_cases hk : k = 0
    · rw [if_pos hk]
      exact ⟨hext, hone, hrem⟩
    · rw [if_neg hk]
      have hposfull : p pos.1 pos.2 = fullGrid pos.1 pos.2 :=
        hagree pos (List.mem_cons_self pos rest)
      by_cases hcount : countSolutionsFast (gset p pos.1 pos.2 0) 2 ≠ 1
      · rw [if_pos hcount]
        have hrestore : gset (gset p pos.1 pos.2 0) pos.1 pos.2 (p pos.1 pos.2) = p := by
          rw [gset_gset]
          exact gset_restore p pos.1 pos.2 _ rfl
        rw [hrestore]
        refine ih p k removed hnodup2 ?_ hext hone hrem
        intro q hq
        exact hagree q (List.mem_cons_of_mem pos hq)
      · rw [if_neg hcount]
        rw [not_not] at hcount
        have hext2 : gridExtends (gset p pos.1 pos.2 0) fullGrid :=
          gridExtends_gset_zero hext pos.1 pos.2
        have hone2 : numSolutions (gset p pos.1 pos.2 0) = 1 := by
          have hspec := countSolutionsFast_spec_cls (gset p pos.1 pos.2 0) 2
            (gridValid_of_extends hext2 hv) (gridRange_of_extends hext2 hr)
          rw [hcount] at hspec
          omega
        refine ih (gset p pos.1 pos.2 0) (k - 1)
          ((pos.1, pos.2, p pos.1 pos.2) :: removed) hnodup2 ?_ hext2 hone2 ?_
        · intro q hq
          have hqpos : ¬(q.1 = pos.1 ∧ q.2 = pos.2) := by
            rintro ⟨h1, h2⟩
            have : q = pos := Prod.ext h1 h2
            rw [this] at hq
            exact hposrest hq
          rw [gset_ne _ _ _ _ _ _ hqpos]
          exact hagree q (List.mem_cons_of_mem pos hq)
        · intro x hx
          rcases List.mem_cons.mp hx with rfl | hx2
          · exact hposfull
          · exact hrem x hx2

theorem restoreClues_inv (fullGrid : Grid) (hc : gridComplete fullGrid)
    (hr : gridRange fullGrid) (hv : gridValid fullGrid) :
    ∀ (k : Nat) (removed : List (Fin 9 × Fin 9 × Nat)) (p : Grid),
      gridExtends p fullGrid → numSolutions p = 1 →
      (∀ x ∈ removed, x.2.2 = fullGrid x.1 x.2.1) →
      (gridExtends (restoreClues p removed k) fullGrid ∧
       numSolutions (restoreClues p removed k) = 1) := by
  intro k
  induction k with
  | zero =>
    intro removed p hext hone _
    rw [restoreClues]
    exact ⟨hext, hone⟩
  | succ k ih =>
    intro removed p hext hone hrem
    cases removed with
    | nil =>
      rw [restoreClues]
      exact ⟨hext, hone⟩
    | cons x rest =>
      obtain ⟨r, c, v⟩ := x
      rw [restoreClues]
      have hval : v = fullGrid r c := hrem (r, c, v) (List.mem_cons_self _ rest)
      have hext2 : gridExtends (gset p r c v) fullGrid := by
        intro i j hne
        by_cases hij : i = r ∧ j = c
        · rw [hij.1, hij.2] at hne ⊢
          rw [gset_self] at hne ⊢
          exact hval.symm
        · rw [gset_ne _ _ _ _ _ _ hij] at hne ⊢
          exact hext i j hne
      have hpq : gridExtends p (gset p r c v) := by
        intro i j hne
        by_cases hij : i = r ∧ j = c
        · rw [hij.1, hij.2] at hne ⊢
          rw [gset_self, hval]
          exact hext r c hne
        · rw [gset_ne _ _ _ _ _ _ hij]

      have hone2 : numSolutions (gset p r c v) = 1 :=
        numSolutions_squeeze hpq hext2 hc hr hv hone
      exact ih rest (gset p r c v) hext2 hone2
        (fun x hx => hrem x (List.mem_cons_of_mem _ hx))

/-- Guarantee of removeNumbers: the carved puzzle has the carved-from grid
as its one and only completion. -/
theorem removeNumbers_spec_cls (fullGrid : Grid) (difficulty : String)
    (positions : List (Fin 9 × Fin 9)) (hnodup : positions.Nodup)
    (hc : gridComplete fullGrid) (hr : gridRange fullGrid)
    (hv : gridValid fullGrid) (h : Grid) :
    isCompletionOf h (removeNumbers fullGrid difficulty positions) ↔ h = fullGrid := by
  have hinv := removeLoop_inv_cls fullGrid hc hr hv positions fullGrid
    (configResolve difficulty).removeCount [] hnodup
    (fun _ _ => rfl) (gridExtends_refl fullGrid)
    (numSolutions_complete fullGrid hc hr hv)
    (fun x hx => absurd hx (List.not_mem_nil x))
  obtain ⟨hext, hone, hrem⟩ := hinv
  rw [removeNumbers]
  by_cases hcond : clueCount
      (removeLoop positions fullGrid (configResolve difficulty).removeCount []).1
      < (configResolve difficulty).minCount ∧
      (removeLoop positions fullGrid (configResolve difficulty).removeCount []).2 ≠ []
  · rw [if_pos hcond]
    obtain ⟨hext2, hone2⟩ := restoreClues_inv fullGrid hc hr hv _ _ _ hext hone hrem
    exact completions_eq_full hext2 hc hr hv hone2 h
  · rw [if_neg hcond]
    exact completions_eq_full hext hc hr hv hone h

end SudokuSolver

namespace SudokuCore

/-- difficultyConfig table (sudoku-core.js lines 4-10): clue-count ranges
(minClues, maxClues) for the five difficulty tags; any other key reads as
undefined. -/
def difficultyConfig : String → Option (Nat × Nat) := fun s =>
  if s = "easy" then some (36, 45)
  else if s = "medium" then some (31, 35)
  else if s = "hard" then some (26, 30)
  else if s = "expert" then some (22, 25)
  else if s = "master" then some (17, 21)
  else none

/-- Removal loop of removeNumbers (sudoku-core.js lines 262-296): cycles
through shuffled cell orders (shuffles k is the k-th reshuffle), skips
already-removed cells, zeroes a cell and keeps the removal only when
hasUniqueSolution still holds, counting failed attempts against the budget;
fuel bounds the number of iterations, and the returned puzzle maintains its
invariant whatever the cutoff. -/
def removeLoop (target maxAttempts : Nat) (shuffles : Nat → List (Fin 9 × Fin 9)) :
    Nat → Nat → List (Fin 9 × Fin 9) → Finset (Fin 9 × Fin 9) → Grid → Nat → Grid
  | 0, _, _, _, puzzle, _ => puzzle
  | fuel + 1, k, [], removedCells, puzzle, attempts =>
    if removedCells.card < target ∧ attempts < maxAttempts then
      removeLoop target maxAttempts shuffles fuel (k + 1) (shuffles k)
        removedCells puzzle attempts
    else puzzle
  | fuel + 1, k, pos :: rest, removedCells, puzzle, attempts =>
    if removedCells.card < target ∧ attempts < maxAttempts then
      if pos ∈ removedCells ∨ puzzle pos.1 pos.2 = 0 then
        removeLoop target maxAttempts shuffles fuel k rest removedCells puzzle attempts
      else
        if hasUniqueSolution (gset puzzle pos.1 pos.2 0) then
          removeLoop target maxAttempts shuffles fuel k rest
            (insert pos removedCells) (gset puzzle pos.1 pos.2 0) 0
        else
          removeLoop target maxAttempts shuffles fuel k rest removedCells
            (gset (gset puzzle pos.1 pos.2 0) pos.1 pos.2 (puzzle pos.1 pos.2))
            (attempts + 1)
    else puzzle

/-- removeNumbers (sudoku-core.js lines 241-304): the destructuring of an
undefined difficultyConfig lookup throws a TypeError, embedded as none;
cluesToKeep = floor(random * (maxClues - minClues + 1)) + minClues is
embedded with the random draw as the cluesRand parameter. -/
def removeNumbers (fullGrid : Grid) (difficulty : String) (cluesRand : Nat)
    (shuffles : Nat → List (Fin 9 × Fin 9)) (fuel : Nat) : Option Grid :=
  match difficultyConfig difficulty with
  | none => none
  | some (minClues, maxClues) =>
    some (removeLoop (81 - (cluesRand % (maxClues - minClues + 1) + minClues))
      1000 shuffles fuel 1 (shuffles 0) ∅ fullGrid 0)

theorem removeLoop_inv (fullGrid : Grid) (hc : gridComplete fullGrid)
    (hr : gridRange fullGrid) (hv : gridValid fullGrid)
    (target maxAttempts : Nat) (shuffles : Nat → List (Fin 9 × Fin 9)) :
    ∀ (fuel k : Nat) (order : List (Fin 9 × Fin 9))
      (removedCells : Finset (Fin 9 × Fin 9)) (puzzle : Grid) (attempts : Nat),
      gridExtends puzzle fullGrid → numSolutions puzzle = 1 →
      (gridExtends (removeLoop target maxAttempts shuffles fuel k order
          removedCells puzzle attempts) fullGrid ∧
       numSolutions (removeLoop target maxAttempts shuffles fuel k order
          removedCells puzzle attempts) = 1) := by
  intro fuel
  induction fuel with
  | zero =>
    intro k order removedCells puzzle attempts hext hone
    rw [removeLoop]
    exact ⟨hext, hone⟩
  | succ fuel ih =>
    intro k order removedCells puzzle attempts hext hone
    cases order with
    | nil =>
      rw [removeLoop]
      by_cases hgo : removedCells.card < target ∧ attempts < maxAttempts
      · rw [if_pos hgo]
        exact ih _ _ _ _ _ hext hone
      · rw [if_neg hgo]
        exact ⟨hext, hone⟩
    | cons pos rest =>
      rw [removeLoop]
      by_cases hgo : removedCells.card < target ∧ attempts < maxAttempts
      · rw [if_pos hgo]
        by_cases hskip : pos ∈ removedCells ∨ puzzle pos.1 pos.2 = 0
        · rw [if_pos hskip]
          exact ih _ _ _ _ _ hext hone
        · rw [if_neg hskip]
          have hext2 : gridExtends (gset puzzle pos.1 pos.2 0) fullGrid :=
            gridExtends_gset_zero hext pos.1 pos.2
          by_cases huniq : hasUniqueSolution (gset puzzle pos.1 pos.2 0)
          · rw [if_pos huniq]
            have hone2 : numSolutions (gset puzzle pos.1 pos.2 0) = 1 := by
              rw [hasUniqueSolution, beq_iff_eq] at huniq
              have hspec := countSolutionsFast_spec (gset puzzle pos.1 pos.2 0)
                (gridValid_of_extends hext2 hv) (gridRange_of_extends hext2 hr)
              rw [huniq] at hspec
              omega
            exact ih _ _ _ _ _ hext2 hone2
          · rw [if_neg huniq]
            have hrestore : gset (gset puzzle pos.1 pos.2 0) pos.1 pos.2
                (puzzle pos.1 pos.2) = puzzle := by
              rw [gset_gset]
              exact gset_restore puzzle pos.1 pos.2 _ rfl
            rw [hrestore]
            exact ih _ _ _ _ _ hext hone
      · rw [if_neg hgo]
        exact ⟨hext, hone⟩

/-- Guarantee of removeNumbers: whenever the config lookup succeeds, the
carved puzzle has the carved-from grid as its one and only completion. -/
theorem removeNumbers_spec (fullGrid : Grid) (difficulty : String)
    (cluesRand : Nat) (shuffles : Nat → List (Fin 9 × Fin 9)) (fuel : Nat)
    (hc : gridComplete fullGrid) (hr : gridRange fullGrid) (hv : gridValid fullGrid)
    (p : Grid) (hp : removeNumbers fullGrid difficulty cluesRand shuffles fuel = some p)
    (h : Grid) : isCompletionOf h p ↔ h = fullGrid := by
  rw [removeNumbers] at hp
  cases hcfg : difficultyConfig difficulty with
  | none =>
    rw [hcfg] at hp
    exact absurd hp (Option.noConfusion)
  | some cfg =>
    obtain ⟨minClues, maxClues⟩ := cfg
    rw [hcfg] at hp
    obtain rfl := Option.some.inj hp
    obtain ⟨hext, hone⟩ := removeLoop_inv fullGrid hc hr hv _ 1000 shuffles fuel 1
      (shuffles 0) ∅ fullGrid 0 (gridExtends_refl fullGrid)
      (numSolutions_complete fullGrid hc hr hv)
    exact completions_eq_full hext hc hr hv hone h

end SudokuCore

namespace SudokuGen

/-- Difficulty configuration of the functional module (part_000 lines
5-11). -/
structure P0Cfg where
  targetRemoved : Nat
  maxAttempts : Nat
  timeout : Nat
deriving DecidableEq

/-- difficultyConfig table of the functional module; any other key reads as
undefined. -/
def difficultyConfig : String → Option P0Cfg := fun s =>
  if s = "easy" then some ⟨30, 1000, 10000⟩
  else if s = "medium" then some ⟨40, 2000, 15000⟩
  else if s = "hard" then some ⟨50, 3000, 20000⟩
  else if s = "expert" then some ⟨55, 5000, 25000⟩
  else if s = "master" then some ⟨60, 10000, 30000⟩
  else none

/-- Guard of generateSudokuPuzzle (part_000 lines 322-326): an unknown
difficulty tag throws a distinct invalid-argument Error before any search
work happens; the guard is embedded as an Except value. -/
def generateSudokuPuzzleGuard (difficulty : String) : Except String P0Cfg :=
  match difficultyConfig difficulty with
  | none => Except.error ("未知的难度级别: " ++ difficulty)
  | some config => Except.ok config

/-- removeNumbers of the functional module (part_000 lines 265-315): pop
positions from the shuffled array (the pops are the successive heads of the
positions parameter), zero the still-filled cell, count the solutions of a
clone, and keep the removal only when exactly one solution remains. -/
def removeLoop (reorder : Grid → List Nat → List Nat) (count maxAttempts : Nat) :
    List (Fin 9 × Fin 9) → Grid → Nat → Nat → Grid
  | [], puzzle, _, _ => puzzle
  | pos :: rest, puzzle, removed, attempts =>
    if removed < count ∧ attempts < maxAttempts then
      if puzzle pos.1 pos.2 ≠ 0 then
        if countSolutionsFast reorder (gset puzzle pos.1 pos.2 0) = 1 then
          removeLoop reorder count maxAttempts rest (gset puzzle pos.1 pos.2 0)
            (removed + 1) (attempts + 1)
        else
          removeLoop reorder count maxAttempts rest
            (gset (gset puzzle pos.1 pos.2 0) pos.1 pos.2 (puzzle pos.1 pos.2))
            removed (attempts + 1)
      else removeLoop reorder count maxAttempts rest puzzle removed (attempts + 1)
    else puzzle

def removeNumbers (reorder : Grid → List Nat → List Nat) (grid : Grid)
    (count : Nat) (positions : List (Fin 9 × Fin 9)) : Grid :=
  removeLoop reorder count (count * 100) positions grid 0 0

theorem removeLoop_inv_p0 (reorder : Grid → List Nat → List Nat)
    (hperm : ∀ g l, List.Perm (reorder g l) l)
    (fullGrid : Grid) (hc : gridComplete fullGrid)
    (hr : gridRange fullGrid) (hv : gridValid fullGrid) (count maxAttempts : Nat) :
    ∀ (positions : List (Fin 9 × Fin 9)) (puzzle : Grid) (removed attempts : Nat),
      gridExtends puzzle fullGrid → numSolutions puzzle = 1 →
      (gridExtends (removeLoop reorder count maxAttempts positions puzzle
          removed attempts) fullGrid ∧
       numSolutions (removeLoop reorder count maxAttempts positions puzzle
          removed attempts) = 1) := by
  intro positions
  induction positions with
  | nil =>
    intro puzzle removed attempts hext hone
    rw [removeLoop]
    exact ⟨hext, hone⟩
  | cons pos rest ih =>
    intro puzzle removed attempts hext hone
    rw [removeLoop]
    by_cases hgo : removed < count ∧ attempts < maxAttempts
    · rw [if_pos hgo]
      by_cases hfilled : puzzle pos.1 pos.2 ≠ 0
      · rw [if_pos hfilled]
        have hext2 : gridExtends (gset puzzle pos.1 pos.2 0) fullGrid :=
          gridExtends_gset_zero hext pos.1 pos.2
        by_cases hcnt : countSolutionsFast reorder (gset puzzle pos.1 pos.2 0) = 1
        · rw [if_pos hcnt]
          have hone2 : numSolutions (gset puzzle pos.1 pos.2 0) = 1 := by
            have hspec := countSolutionsFast_spec_p0 reorder hperm
              (gset puzzle pos.1 pos.2 0)
              (gridValid_of_extends hext2 hv) (gridRange_of_extends hext2 hr)
            rw [hcnt] at hspec
            omega
          exact ih _ _ _ hext2 hone2
        · rw [if_neg hcnt]
          have hrestore : gset (gset puzzle pos.1 pos.2 0) pos.1 pos.2
              (puzzle pos.1 pos.2) = puzzle := by
            rw [gset_gset]
            exact gset_restore puzzle pos.1 pos.2 _ rfl
          rw [hrestore]
          exact ih _ _ _ hext hone
      · rw [if_neg hfilled]
        exact ih _ _ _ hext hone
    · rw [if_neg hgo]
      exact ⟨hext, hone⟩

/-- Guarantee of removeNumbers: the carved puzzle keeps the carved-from
grid as its one and only completion. -/
theorem removeNumbers_spec_p0 (reorder : Grid → List Nat → List Nat)
    (hperm : ∀ g l, List.Perm (reorder g l) l)
    (fullGrid : Grid) (count : Nat) (positions : List (Fin 9 × Fin 9))
    (hc : gridComplete fullGrid) (hr : gridRange fullGrid) (hv : gridValid fullGrid)
    (h : Grid) :
    isCompletionOf h (removeNumbers reorder fullGrid count positions) ↔ h = fullGrid := by
  obtain ⟨hext, hone⟩ := removeLoop_inv_p0 reorder hperm fullGrid hc hr hv count
    (count * 100) positions fullGrid 0 0 (gridExtends_refl fullGrid)
    (numSolutions_complete fullGrid hc hr hv)
  exact completions_eq_full hext hc hr hv hone h

end SudokuGen

/-- The canonical solved grid of spec section 8, used as a concrete complete
valid grid in instantiations. -/
def canonicalGrid : Grid := mkGrid
  [[1, 2, 3, 4, 5, 6, 7, 8, 9],
   [4, 5, 6, 7, 8, 9, 1, 2, 3],
   [7, 8, 9, 1, 2, 3, 4, 5, 6],
   [2, 3, 4, 5, 6, 7, 8, 9, 1],
   [5, 6, 7, 8, 9, 1, 2, 3, 4],
   [8, 9, 1, 2, 3, 4, 5, 6, 7],
   [3, 4, 5, 6, 7, 8, 9, 1, 2],
   [6, 7, 8, 9, 1, 2, 3, 4, 5],
   [9, 1, 2, 3, 4, 5, 6, 7, 8]]

/-- A structurally valid but unsolvable grid: cell (0, 0) is empty, digits
2..9 are blocked by row 0 and digit 1 by cell (1, 0), so no digit can be
placed at (0, 0). -/
def gBad : Grid := mkGrid
  [[0, 2, 3, 4, 5, 6, 7, 8, 9],
   [1, 0, 0, 0, 0, 0, 0, 0, 0]]

/-- Grid exercising the MRV scan of countSolutionsFast in sudoku-core.js:
cell (0, 0) is empty with exactly one candidate (digit 1), all other cells
of row 0 are filled. -/
def gC8 : Grid := mkGrid [[0, 2, 3, 4, 5, 6, 7, 8, 9]]

theorem gridValid_gBad : gridValid gBad := by decide

theorem gridRange_gBad : gridRange gBad := by decide

theorem gBad_no_candidate : ∀ d, 1 ≤ d → d ≤ 9 →
    isValidPlacement gBad 0 0 d = false := by
  intro d h1 h9
  interval_cases d <;> decide

theorem numSolutions_gBad : numSolutions gBad = 0 :=
  numSolutions_eq_zero_of_no_candidate gBad 0 0 (by decide) gBad_no_candidate

theorem mrv_gBad_false : (SudokuCore.solveGridWithMRV gBad).1 = false := by
  have h := (SudokuCore.solveGridWithMRV_spec gBad gridValid_gBad gridRange_gBad).1
  rw [numSolutions_gBad] at h
  cases hb : (SudokuCore.solveGridWithMRV gBad).1 with
  | false => rfl
  | true => exact absurd (h.mp hb) (by omega)

theorem class_solve_gBad_false :
    (SudokuSolver.solveGrid (fun _ l => l) gBad true).1 = false := by
  have h := (SudokuSolver.solveGrid_spec_cls (fun _ l => l)
    (fun _ l => List.Perm.refl l) gBad true gridValid_gBad gridRange_gBad).1
  rw [numSolutions_gBad] at h
  cases hb : (SudokuSolver.solveGrid (fun _ l => l) gBad true).1 with
  | false => rfl
  | true => exact absurd (h.mp hb) (by omega)

theorem p0_solve_gBad_false :
    (SudokuGen.solveGrid (fun _ l => l) gBad).1 = false := by
  have h := (SudokuGen.solveGrid_spec_p0 (fun _ l => l)
    (fun _ l => List.Perm.refl l) gBad gridValid_gBad gridRange_gBad).1
  rw [numSolutions_gBad] at h
  cases hb : (SudokuGen.solveGrid (fun _ l => l) gBad).1 with
  | false => rfl
  | true => exact absurd (h.mp hb) (by omega)

theorem difficultyConfig_isSome_of_mem (difficulty : String)
    (h : difficulty ∈ ["easy", "medium", "hard", "expert", "master"]) :
    ∃ cfg, SudokuCore.difficultyConfig difficulty = some cfg := by
  simp only [List.mem_cons, List.not_mem_nil, or_false] at h
  rcases h with rfl | rfl | rfl | rfl | rfl
  all_goals exact ⟨_, rfl⟩

theorem isCompletionOf_canonical : isCompletionOf canonicalGrid emptyGrid := by
  decide

theorem one_le_numSolutions_emptyGrid : 1 ≤ numSolutions emptyGrid :=
  (one_le_numSolutions_iff emptyGrid).mpr ⟨canonicalGrid, isCompletionOf_canonical⟩

/-- SudokuSolver.generateFullSudoku returns a complete, in-range, valid grid
for every admissible shuffle: the randomized solve of the empty grid always
succeeds because the empty grid has at least one completion. -/
theorem generateFullSudoku_isCompletion (reorder : Grid → List Nat → List Nat)
    (hperm : ∀ g l, List.Perm (reorder g l) l) :
    isCompletionOf (SudokuSolver.generateFullSudoku reorder) emptyGrid := by
  have hspec := SudokuSolver.solveGrid_spec_cls reorder hperm emptyGrid true
    (by decide) (by decide)
  exact hspec.2 (hspec.1.mpr one_le_numSolutions_emptyGrid)

/-- C1: for every grid with entries in 0..9, every row, column and digit in
1..9, isValidPlacement returns false if and only if the digit already
appears in the row, the column, or the 3x3 box of (row, col); the
object-literal and class modules share the definition isValidPlacement, the
functional module's single-loop variant isValidPlacementP0 computes the same
value, and all are pure functions of the grid (no side effects by
construction of the embedding). -/
theorem C1_isValidPlacement_characterisation (g : Grid) (r c : Fin 9)
    (num : Nat) (hg : gridRange g) (h1 : 1 ≤ num) (h9 : num ≤ 9) :
    (isValidPlacement g r c num = false ↔
      (∃ x, g r x = num) ∨ (∃ x, g x c = num) ∨
      (∃ x y : Fin 9, x.val / 3 = r.val / 3 ∧ y.val / 3 = c.val / 3 ∧
        g x y = num)) ∧
    isValidPlacementP0 g r c num = isValidPlacement g r c num :=
  ⟨isValidPlacement_false_iff g r c num, isValidPlacementP0_eq g r c num⟩

theorem C1_witness :
    gridRange canonicalGrid ∧ 1 ≤ 1 ∧ 1 ≤ 9 ∧
    ((isValidPlacement canonicalGrid 0 0 1 = false ↔
      (∃ x, canonicalGrid 0 x = 1) ∨ (∃ x, canonicalGrid x 0 = 1) ∨
      (∃ x y : Fin 9, x.val / 3 = (0 : Fin 9).val / 3 ∧
        y.val / 3 = (0 : Fin 9).val / 3 ∧ canonicalGrid x y = 1)) ∧
    isValidPlacementP0 canonicalGrid 0 0 1 = isValidPlacement canonicalGrid 0 0 1) :=
  ⟨by decide, by decide, by decide,
   C1_isValidPlacement_characterisation canonicalGrid 0 0 1 (by decide)
     (by decide) (by decide)⟩

/-- C2: on a structurally valid grid with entries in 0..9, all three
solution counters capped at 2 return exactly min (numSolutions g) 2 — so
the result is in 0..2, a uniquely solvable grid yields 1, a grid with two
or more completions yields 2, and a contradictory grid yields 0. The
functional module's counter is quantified over every candidate reordering
that is a permutation (its Fisher-Yates shuffle). -/
theorem C2_counters_cap_at_two (g : Grid) (hv : gridValid g)
    (hr : gridRange g) (reorder : Grid → List Nat → List Nat)
    (hperm : ∀ g l, List.Perm (reorder g l) l) :
    SudokuCore.countSolutionsFast g = min (numSolutions g) 2 ∧
    SudokuSolver.countSolutionsFast g 2 = min (numSolutions g) 2 ∧
    SudokuGen.countSolutionsFast reorder g = min (numSolutions g) 2 :=
  ⟨SudokuCore.countSolutionsFast_spec g hv hr,
   SudokuSolver.countSolutionsFast_spec_cls g 2 hv hr,
   SudokuGen.countSolutionsFast_spec_p0 reorder hperm g hv hr⟩

theorem C2_witness :
    gridValid canonicalGrid ∧ gridRange canonicalGrid ∧
    (SudokuCore.countSolutionsFast canonicalGrid =
      min (numSolutions canonicalGrid) 2 ∧
     SudokuSolver.countSolutionsFast canonicalGrid 2 =
      min (numSolutions canonicalGrid) 2 ∧
     SudokuGen.countSolutionsFast (fun _ l => l) canonicalGrid =
      min (numSolutions canonicalGrid) 2) :=
  ⟨by decide, by decide,
   C2_counters_cap_at_two canonicalGrid (by decide) (by decide)
     (fun _ l => l) (fun _ l => List.Perm.refl l)⟩

/-- C3: for every complete valid grid and every supported difficulty, each
of the three removeNumbers carvers returns a puzzle whose unique completion
is the input grid itself (for the class carver the removal positions are
pairwise distinct as produced by its shuffle of all 81 cells; the
object-literal carver's config destructuring succeeds exactly on supported
difficulties, yielding some puzzle). -/
theorem C3_removeNumbers_unique_solution (fullGrid : Grid)
    (hc : gridComplete fullGrid) (hr : gridRange fullGrid)
    (hv : gridValid fullGrid) (difficulty : String)
    (hdiff : difficulty ∈ ["easy", "medium", "hard", "expert", "master"])
    (positions : List (Fin 9 × Fin 9)) (hnodup : positions.Nodup)
    (reorder : Grid → List Nat → List Nat)
    (hperm : ∀ g l, List.Perm (reorder g l) l)
    (cluesRand count fuel : Nat) (shuffles : Nat → List (Fin 9 × Fin 9)) :
    (∀ h, isCompletionOf h (SudokuSolver.removeNumbers fullGrid difficulty
        positions) ↔ h = fullGrid) ∧
    (∃ p, SudokuCore.removeNumbers fullGrid difficulty cluesRand shuffles
        fuel = some p ∧ ∀ h, isCompletionOf h p ↔ h = fullGrid) ∧
    (∀ h, isCompletionOf h (SudokuGen.removeNumbers reorder fullGrid count
        positions) ↔ h = fullGrid) := by
  obtain ⟨cfg, hcfg⟩ := difficultyConfig_isSome_of_mem difficulty hdiff
  obtain ⟨minClues, maxClues⟩ := cfg
  have hps : (SudokuCore.removeNumbers fullGrid difficulty cluesRand shuffles
      fuel).isSome := by
    rw [SudokuCore.removeNumbers, hcfg]
    rfl
  obtain ⟨p, hp⟩ := Option.isSome_iff_exists.mp hps
  exact ⟨fun h => SudokuSolver.removeNumbers_spec_cls fullGrid difficulty
      positions hnodup hc hr hv h,
    ⟨p, hp, fun h => SudokuCore.removeNumbers_spec fullGrid difficulty
      cluesRand shuffles fuel hc hr hv p hp h⟩,
    fun h => SudokuGen.removeNumbers_spec_p0 reorder hperm fullGrid count
      positions hc hr hv h⟩

theorem C3_witness :
    gridComplete canonicalGrid ∧ gridValid canonicalGrid ∧
    "easy" ∈ ["easy", "medium", "hard", "expert", "master"] ∧
    ((∀ h, isCompletionOf h (SudokuSolver.removeNumbers canonicalGrid "easy"
        []) ↔ h = canonicalGrid) ∧
     (∃ p, SudokuCore.removeNumbers canonicalGrid "easy" 0 (fun _ => []) 0 =
        some p ∧ ∀ h, isCompletionOf h p ↔ h = canonicalGrid) ∧
     (∀ h, isCompletionOf h (SudokuGen.removeNumbers (fun _ l => l)
        canonicalGrid 0 []) ↔ h = canonicalGrid)) :=
  ⟨by decide, by decide, by decide,
   C3_removeNumbers_unique_solution canonicalGrid (by decide) (by decide)
     (by decide) "easy" (by decide) [] (by decide) (fun _ l => l)
     (fun _ l => List.Perm.refl l) 0 0 0 (fun _ => [])⟩

/-- C4: when a solver answers false, the grid it hands back is exactly the
grid it was given — full backtracking leaves no partial digits. Stated for
the three cited solvers: the object-literal module's solveGridWithMRV, the
class module's solveGrid (any shuffle, any randomize flag), and the
functional module's solveGrid (any shuffle). -/
theorem C4_solver_restores_on_failure (g : Grid)
    (reorder : Grid → List Nat → List Nat) (randomize : Bool) :
    ((SudokuCore.solveGridWithMRV g).1 = false →
      (SudokuCore.solveGridWithMRV g).2 = g) ∧
    ((SudokuSolver.solveGrid reorder g randomize).1 = false →
      (SudokuSolver.solveGrid reorder g randomize).2 = g) ∧
    ((SudokuGen.solveGrid reorder g).1 = false →
      (SudokuGen.solveGrid reorder g).2 = g) :=
  ⟨SudokuCore.solveMRVAux_restore (emptyCount g + 1) g,
   SudokuSolver.solveAux_restore_cls reorder (emptyCount g + 1) g randomize,
   SudokuGen.solveAux_restore_p0 reorder (emptyCount g + 1) g⟩

theorem C4_witness :
    (SudokuCore.solveGridWithMRV gBad).2 = gBad ∧
    (SudokuSolver.solveGrid (fun _ l => l) gBad true).2 = gBad ∧
    (SudokuGen.solveGrid (fun _ l => l) gBad).2 = gBad :=
  ⟨(C4_solver_restores_on_failure gBad (fun _ l => l) true).1 mrv_gBad_false,
   (C4_solver_restores_on_failure gBad (fun _ l => l) true).2.1
     class_solve_gBad_false,
   (C4_solver_restores_on_failure gBad (fun _ l => l) true).2.2
     p0_solve_gBad_false⟩

/-- C6: the solution counters return the very grid they were handed in
their grid component, for every fuel, running count, and cap — the caller's
working grid is never corrupted (the JSON deep copies of the sources are
the identity in this pure embedding, and every tentative placement is
undone). Stated for the object-literal, class, and functional counters. -/
theorem C6_counters_preserve_grid (g : Grid) (fuel cnt maxS : Nat)
    (reorder : Grid → List Nat → List Nat) :
    (SudokuCore.countAux fuel g cnt).2 = g ∧
    (SudokuSolver.countAux maxS fuel g cnt).2 = g ∧
    (SudokuGen.countAux reorder fuel g cnt).2.2 = g :=
  ⟨SudokuCore.countAux_restore fuel g cnt,
   SudokuSolver.countAux_restore_cls maxS fuel g cnt,
   SudokuGen.countAux_restore_p0 reorder fuel g cnt⟩

/-- C7 counterexample: the class module's removeNumbers does not signal an
error on the unknown difficulty tag "beginner" — its difficultyLevels
lookup is undefined (none), yet removeNumbers behaves exactly as it does
for "medium": the claim "never silently substitute a default difficulty"
is false for sudoku-solver.js. -/
theorem C7_counterexample :
    SudokuSolver.difficultyLevels "beginner" = none ∧
    SudokuSolver.removeNumbers canonicalGrid "beginner" [] =
      SudokuSolver.removeNumbers canonicalGrid "medium" [] := by
  constructor
  · rfl
  · decide

/-- C7 amended: on a difficulty tag outside the five supported ones, the
functional module's generateSudokuPuzzle throws a distinct invalid-argument
error, and the object-literal module's removeNumbers throws (a TypeError
from destructuring an undefined config — embedded as none, no puzzle is
produced), but the class module's removeNumbers silently falls back to the
medium configuration and behaves exactly as for "medium". -/
theorem C7_unknown_difficulty_behaviour (difficulty : String)
    (h : difficulty ∉ ["easy", "medium", "hard", "expert", "master"]) :
    SudokuGen.generateSudokuPuzzleGuard difficulty =
      Except.error ("未知的难度级别: " ++ difficulty) ∧
    (∀ fullGrid cluesRand shuffles fuel,
      SudokuCore.removeNumbers fullGrid difficulty cluesRand shuffles fuel =
        none) ∧
    (∀ fullGrid positions,
      SudokuSolver.removeNumbers fullGrid difficulty positions =
        SudokuSolver.removeNumbers fullGrid "medium" positions) := by
  simp only [List.mem_cons, List.not_mem_nil, or_false, not_or] at h
  obtain ⟨h1, h2, h3, h4, h5⟩ := h
  have hp0 : SudokuGen.difficultyConfig difficulty = none := by
    rw [SudokuGen.difficultyConfig]
    rw [if_neg h1, if_neg h2, if_neg h3, if_neg h4, if_neg h5]
  have hcore : SudokuCore.difficultyConfig difficulty = none := by
    rw [SudokuCore.difficultyConfig]
    rw [if_neg h1, if_neg h2, if_neg h3, if_neg h4, if_neg h5]
  have hclass : SudokuSolver.difficultyLevels difficulty = none := by
    rw [SudokuSolver.difficultyLevels]
    rw [if_neg h1, if_neg h2, if_neg h3, if_neg h4, if_neg h5]
  refine ⟨?_, ?_, ?_⟩
  · rw [SudokuGen.generateSudokuPuzzleGuard, hp0]
  · intro fullGrid cluesRand shuffles fuel
    rw [SudokuCore.removeNumbers, hcore]
  · intro fullGrid positions
    have hcfg : SudokuSolver.configResolve difficulty =
        SudokuSolver.configResolve "medium" := by
      rw [SudokuSolver.configResolve, SudokuSolver.configResolve, hclass]
      rfl
    rw [SudokuSolver.removeNumbers, SudokuSolver.removeNumbers, hcfg]

theorem C7_witness :
    "beginner" ∉ ["easy", "medium", "hard", "expert", "master"] ∧
    SudokuGen.generateSudokuPuzzleGuard "beginner" =
      Except.error ("未知的难度级别: " ++ "beginner") ∧
    SudokuCore.removeNumbers canonicalGrid "beginner" 0 (fun _ => []) 0 =
      none ∧
    SudokuSolver.removeNumbers canonicalGrid "beginner" [] =
      SudokuSolver.removeNumbers canonicalGrid "medium" [] := by
  have h := C7_unknown_difficulty_behaviour "beginner" (by decide)
  exact ⟨by decide, h.1, h.2.1 canonicalGrid 0 (fun _ => []) 0,
    h.2.2 canonicalGrid []⟩

/-- C8: evaluation of the branching-cell selection of countSolutionsFast in
sudoku-core.js on the concrete grid gC8. Cell (0, 0) is empty with exactly
one candidate, yet the scan selects cell (1, 3), whose candidate count is
6: the selected cell is not of minimum candidate count, contradicting the
MRV rule the claim states (and the source's own comments). The cause: the
`possibilities === 1` shortcut at line 185 records the cell but never sets
minPossibilities to 1, so the outer break condition at line 199 stays false
and later rows override the recorded minimum. -/
theorem C8_mrv_selection_violated :
    gC8 0 0 = 0 ∧ candCount gC8 0 0 = 1 ∧
    SudokuCore.selectCell gC8 = some (1, 3) ∧ candCount gC8 1 3 = 6 := by
  decide

/-- C9: on every structurally valid grid with entries in 0..9, the four
solvers (object-literal plain and MRV, class with any shuffle and either
randomize flag, functional with any shuffle) return the same verdict, and
the three counters capped at 2 return the same count. -/
theorem C9_implementations_agree (g : Grid) (hv : gridValid g)
    (hr : gridRange g) (reorder : Grid → List Nat → List Nat)
    (hperm : ∀ g l, List.Perm (reorder g l) l) (randomize : Bool) :
    (SudokuCore.solveGrid g).1 = (SudokuCore.solveGridWithMRV g).1 ∧
    (SudokuSolver.solveGrid reorder g randomize).1 =
      (SudokuCore.solveGrid g).1 ∧
    (SudokuGen.solveGrid reorder g).1 = (SudokuCore.solveGrid g).1 ∧
    SudokuCore.countSolutionsFast g = SudokuSolver.countSolutionsFast g 2 ∧
    SudokuGen.countSolutionsFast reorder g =
      SudokuCore.countSolutionsFast g := by
  have key : ∀ (a b : Bool), (a = true ↔ 1 ≤ numSolutions g) →
      (b = true ↔ 1 ≤ numSolutions g) → a = b := by
    intro a b ha hb
    cases a <;> cases b
    · rfl
    · exact absurd (hb.mp rfl) (fun hn => by
        have := ha.mpr hn
        exact Bool.noConfusion this)
    · exact absurd (ha.mp rfl) (fun hn => by
        have := hb.mpr hn
        exact Bool.noConfusion this)
    · rfl
  refine ⟨?_, ?_, ?_, ?_, ?_⟩
  · exact key _ _ (SudokuCore.solveGrid_spec g hv hr).1
      (SudokuCore.solveGridWithMRV_spec g hv hr).1
  · exact key _ _
      (SudokuSolver.solveGrid_spec_cls reorder hperm g randomize hv hr).1
      (SudokuCore.solveGrid_spec g hv hr).1
  · exact key _ _ (SudokuGen.solveGrid_spec_p0 reorder hperm g hv hr).1
      (SudokuCore.solveGrid_spec g hv hr).1
  · rw [SudokuCore.countSolutionsFast_spec g hv hr,
      SudokuSolver.countSolutionsFast_spec_cls g 2 hv hr]
  · rw [SudokuGen.countSolutionsFast_spec_p0 reorder hperm g hv hr,
      SudokuCore.countSolutionsFast_spec g hv hr]

theorem C9_witness :
    gridValid gBad ∧ gridRange gBad ∧
    ((SudokuCore.solveGrid gBad).1 = (SudokuCore.solveGridWithMRV gBad).1 ∧
     (SudokuSolver.solveGrid (fun _ l => l) gBad false).1 =
       (SudokuCore.solveGrid gBad).1 ∧
     (SudokuGen.solveGrid (fun _ l => l) gBad).1 =
       (SudokuCore.solveGrid gBad).1 ∧
     SudokuCore.countSolutionsFast gBad =
       SudokuSolver.countSolutionsFast gBad 2 ∧
     SudokuGen.countSolutionsFast (fun _ l => l) gBad =
       SudokuCore.countSolutionsFast gBad) :=
  ⟨gridValid_gBad, gridRange_gBad,
   C9_implementations_agree gBad gridValid_gBad gridRange_gBad
     (fun _ l => l) (fun _ l => List.Perm.refl l) false⟩

/-- C10: probing a filled cell with its own current value returns false in
every implementation, because the row scan includes the probed position
itself; stated for the shared object-literal and class definition and the
functional module's variant. -/
theorem C10_self_probe_rejected (g : Grid) (r c : Fin 9) (d : Nat)
    (hd : d ≠ 0) (h : g r c = d) :
    isValidPlacement g r c d = false ∧ isValidPlacementP0 g r c d = false := by
  have hfalse : isValidPlacement g r c d = false :=
    (isValidPlacement_false_iff g r c d).mpr (Or.inl ⟨c, h⟩)
  exact ⟨hfalse, by rw [isValidPlacementP0_eq]; exact hfalse⟩

theorem C10_witness :
    (1 : Nat) ≠ 0 ∧ canonicalGrid 0 0 = 1 ∧
    (isValidPlacement canonicalGrid 0 0 1 = false ∧
     isValidPlacementP0 canonicalGrid 0 0 1 = false) :=
  ⟨by decide, by decide,
   C10_self_probe_rejected canonicalGrid 0 0 1 (by decide) (by decide)⟩
